import Mathlib

/-!
# PyMsyt — verification of the MSBT/MSYT codec wrapper

PyMsyt (`src/src/lib.rs`) is a thin Python binding over the external `msyt`
codec crate.  The wrapper itself (file/directory conversion pipeline, error
message formatting, the `Msbt` class methods) is embedded directly from
`src/src/lib.rs`.  The codec (binary MSBT decode/encode, label hash table,
attribute table, text/control-tag codec) is not present in the repository's
sources; it is modelled here from the specification's description of the
binary format and component contracts (sections 3, 4.2–4.6 and 6 of the
spec).  Machine integers are modelled as `Nat` with explicit `% 2^w`
reductions at the byte-serialization boundary.
-/

set_option maxRecDepth 100000

namespace PyMsyt

/-- Byte order of an MSBT file (`Endianness` in the `msyt` crate). -/
inductive Endianness where
  | little
  | big
deriving DecidableEq, Repr

/-- Text encoding flag of an MSBT header: 0 = UTF-16, 1 = UTF-8. -/
inductive TextEncoding where
  | utf16
  | utf8
deriving DecidableEq, Repr

/-- Error kinds of the codec and pipeline (spec section 7). -/
inductive MsbtError where
  | badMagic
  | unexpectedEof
  | malformedAttributeTable
  | duplicateLabel
  | invalidControlTag
  | missingRequiredSection
deriving DecidableEq, Repr

/-- One run of entry content: literal text (as a list of code units) or an
embedded control tag with opaque parameter bytes (spec section 3, `Run`). -/
inductive Run where
  | text (units : List Nat)
  | controlTag (group kind : Nat) (params : List Nat)
deriving DecidableEq, Repr

/-- One entry of a document: attribute bytes, optional style id, content runs
(spec section 3, `Entry`). -/
structure Entry where
  attributes : List Nat
  style : Option Nat
  contents : List Run
deriving DecidableEq, Repr

/-- A decoded MSBT document: header fields plus the ordered label → entry
mapping (spec section 3, `Document` and `Header`).  Labels are modelled as
their byte strings, which is how the label table stores them. -/
structure Document where
  byteOrder : Endianness
  encoding : TextEncoding
  version : Nat
  entries : List (List Nat × Entry)
deriving DecidableEq, Repr

instance {α β : Type} [DecidableEq α] [DecidableEq β] :
    DecidableEq (Except α β) := fun x y =>
  match x, y with
  | .ok a, .ok b =>
    if h : a = b then isTrue (by rw [h])
    else isFalse (by intro hh; cases hh; exact h rfl)
  | .error a, .error b =>
    if h : a = b then isTrue (by rw [h])
    else isFalse (by intro hh; cases hh; exact h rfl)
  | .ok _, .error _ => isFalse (fun hh => Except.noConfusion hh)
  | .error _, .ok _ => isFalse (fun hh => Except.noConfusion hh)

/-! ## Byte-level primitives (spec section 4.1, Byte Cursor / Endian Codec) -/

/-- Serialize a 16-bit value in the given byte order (low byte = `v % 256`). -/
def u16bytes (e : Endianness) (v : Nat) : List Nat :=
  match e with
  | .little => [v % 256, v / 256 % 256]
  | .big => [v / 256 % 256, v % 256]

/-- Serialize a 32-bit value in the given byte order. -/
def u32bytes (e : Endianness) (v : Nat) : List Nat :=
  match e with
  | .little => [v % 256, v / 256 % 256, v / 65536 % 256, v / 16777216 % 256]
  | .big => [v / 16777216 % 256, v / 65536 % 256, v / 256 % 256, v % 256]

/-- Read a 16-bit value; fails with `UnexpectedEof` when fewer than two bytes
remain.  Returns the value and the remaining bytes. -/
def readU16 (e : Endianness) : List Nat → Option (Nat × List Nat)
  | a :: b :: rest =>
    match e with
    | .little => some (a + 256 * b, rest)
    | .big => some (b + 256 * a, rest)
  | _ => none

/-- Read a 32-bit value; fails when fewer than four bytes remain. -/
def readU32 (e : Endianness) : List Nat → Option (Nat × List Nat)
  | a :: b :: c :: d :: rest =>
    match e with
    | .little => some (a + 256 * b + 65536 * c + 16777216 * d, rest)
    | .big => some (d + 256 * c + 65536 * b + 16777216 * a, rest)
  | _ => none

theorem u16bytes_length (e : Endianness) (v : Nat) : (u16bytes e v).length = 2 := by
  cases e <;> rfl

theorem u32bytes_length (e : Endianness) (v : Nat) : (u32bytes e v).length = 4 := by
  cases e <;> rfl

theorem readU16_u16bytes (e : Endianness) (v : Nat) (hv : v < 65536) (rest : List Nat) :
    readU16 e (u16bytes e v ++ rest) = some (v, rest) := by
  cases e <;> simp only [u16bytes, readU16, List.cons_append, List.nil_append] <;>
    (congr 1; congr 1; omega)

theorem readU32_u32bytes (e : Endianness) (v : Nat) (hv : v < 4294967296) (rest : List Nat) :
    readU32 e (u32bytes e v ++ rest) = some (v, rest) := by
  cases e <;> simp only [u32bytes, readU32, List.cons_append, List.nil_append] <;>
    (congr 1; congr 1; omega)

/-! ## Label hash table (LBL1), spec section 4.4

Modelled from the spec: the `msyt` crate's label hash table codec is not in
the repository sources.  The rolling hash, bucket placement, and the
per-bucket `(label length, label bytes, entry index)` tuple layout follow
the spec's words exactly.  The bucket-growth policy is described only
loosely ("smallest count ≥ a minimum, scaling with entry count"); any
concrete monotone choice is faithful since the chosen count is recorded in
the file and re-read on decode. -/

/-- The format's rolling hash: start from 0, then `h = h * 0x492 + code`
for each character code of the label in order. -/
def labelHash (lab : List Nat) : Nat :=
  lab.foldl (fun h c => h * 0x492 + c) 0

/-- Modelled from the spec: bucket-count policy, a fixed small table for few
entries and a count scaling with entry count beyond it. -/
def bucketCountFor (n : Nat) : Nat :=
  if n ≤ 100 then 101 else n

/-- Place enumerated `(label, entry index)` pairs into hash buckets: pair `p`
goes to bucket `labelHash p.1 % g`, preserving enumeration order in-bucket. -/
def lbl1Buckets (g : Nat) (pairs : List (List Nat × Nat)) :
    List (List (List Nat × Nat)) :=
  (List.range g).map (fun j => pairs.filter (fun p => labelHash p.1 % g == j))

/-- Serialized form of one `(label, entry index)` tuple: one length byte, the
label bytes, then the 32-bit entry index. -/
def labelEntryBytes (e : Endianness) (p : List Nat × Nat) : List Nat :=
  p.1.length % 256 :: (p.1 ++ u32bytes e p.2)

/-- Serialized form of one bucket: 32-bit tuple count, then the tuples. -/
def bucketBytes (e : Endianness) (b : List (List Nat × Nat)) : List Nat :=
  u32bytes e b.length ++ (b.map (labelEntryBytes e)).flatten

/-- LBL1 section payload: 32-bit bucket count, then every bucket in order. -/
def lbl1Payload (e : Endianness) (g : Nat) (pairs : List (List Nat × Nat)) :
    List Nat :=
  u32bytes e g ++ ((lbl1Buckets g pairs).map (bucketBytes e)).flatten

/-- Parse one `(label, entry index)` tuple. -/
def readLabelEntry (e : Endianness) : List Nat → Option ((List Nat × Nat) × List Nat)
  | [] => none
  | len :: rest =>
    if len ≤ rest.length then
      match readU32 e (rest.drop len) with
      | some (i, r) => some ((rest.take len, i), r)
      | none => none
    else none

/-- Parse `n` consecutive `(label, entry index)` tuples. -/
def readBucketEntries (e : Endianness) : Nat → List Nat →
    Option (List (List Nat × Nat) × List Nat)
  | 0, bs => some ([], bs)
  | n + 1, bs =>
    match readLabelEntry e bs with
    | some (p, bs') =>
      match readBucketEntries e n bs' with
      | some (ps, bs'') => some (p :: ps, bs'')
      | none => none
    | none => none

/-- Parse `g` consecutive buckets, each a 32-bit count followed by tuples. -/
def readBuckets (e : Endianness) : Nat → List Nat →
    Option (List (List (List Nat × Nat)) × List Nat)
  | 0, bs => some ([], bs)
  | g + 1, bs =>
    match readU32 e bs with
    | some (n, bs') =>
      match readBucketEntries e n bs' with
      | some (b, bs'') =>
        match readBuckets e g bs'' with
        | some (ls, r) => some (b :: ls, r)
        | none => none
      | none => none
    | none => none

/-- Parse an LBL1 payload into its bucket structure. -/
def lbl1Parse (e : Endianness) (payload : List Nat) :
    Option (List (List (List Nat × Nat))) :=
  match readU32 e payload with
  | some (g, rest) =>
    match readBuckets e g rest with
    | some (buckets, _) => some buckets
    | none => none
  | none => none

theorem readLabelEntry_bytes (e : Endianness) (p : List Nat × Nat)
    (hlen : p.1.length < 256) (hidx : p.2 < 4294967296) (rest : List Nat) :
    readLabelEntry e (labelEntryBytes e p ++ rest) = some (p, rest) := by
  obtain ⟨lab, i⟩ := p
  simp only [labelEntryBytes, List.cons_append, readLabelEntry]
  rw [Nat.mod_eq_of_lt hlen]
  rw [List.append_assoc, List.drop_left, List.take_left]
  rw [readU32_u32bytes e i hidx rest]
  simp [List.length_append, u32bytes_length]

theorem readBucketEntries_bytes (e : Endianness) (b : List (List Nat × Nat))
    (hlen : ∀ p ∈ b, p.1.length < 256) (hidx : ∀ p ∈ b, p.2 < 4294967296)
    (rest : List Nat) :
    readBucketEntries e b.length ((b.map (labelEntryBytes e)).flatten ++ rest)
      = some (b, rest) := by
  induction b with
  | nil => simp [readBucketEntries]
  | cons p t ih =>
    simp only [List.map_cons, List.flatten_cons, List.length_cons, List.append_assoc,
      readBucketEntries]
    rw [readLabelEntry_bytes e p (hlen p (by simp)) (hidx p (by simp))]
    dsimp only
    rw [ih (fun q hq => hlen q (by simp [hq])) (fun q hq => hidx q (by simp [hq]))]

theorem readBuckets_bytes (e : Endianness) (ls : List (List (List Nat × Nat)))
    (hlen : ∀ b ∈ ls, ∀ p ∈ b, p.1.length < 256)
    (hidx : ∀ b ∈ ls, ∀ p ∈ b, p.2 < 4294967296)
    (hcnt : ∀ b ∈ ls, b.length < 4294967296) (rest : List Nat) :
    readBuckets e ls.length ((ls.map (bucketBytes e)).flatten ++ rest)
      = some (ls, rest) := by
  induction ls with
  | nil => simp [readBuckets]
  | cons b t ih =>
    simp only [List.map_cons, List.flatten_cons, List.length_cons, List.append_assoc,
      readBuckets, bucketBytes]
    rw [readU32_u32bytes e b.length (hcnt b (by simp))]
    dsimp only
    rw [readBucketEntries_bytes e b (hlen b (by simp)) (hidx b (by simp))]
    dsimp only
    rw [ih (fun c hc => hlen c (by simp [hc])) (fun c hc => hidx c (by simp [hc]))
      (fun c hc => hcnt c (by simp [hc]))]

theorem lbl1Parse_payload (e : Endianness) (g : Nat) (pairs : List (List Nat × Nat))
    (hg : g < 4294967296) (hcnt : pairs.length < 4294967296)
    (hlen : ∀ p ∈ pairs, p.1.length < 256) (hidx : ∀ p ∈ pairs, p.2 < 4294967296) :
    lbl1Parse e (lbl1Payload e g pairs) = some (lbl1Buckets g pairs) := by
  have hb : ∀ b ∈ lbl1Buckets g pairs, ∀ p ∈ b, p ∈ pairs := by
    intro b hb p hp
    simp only [lbl1Buckets, List.mem_map, List.mem_range] at hb
    obtain ⟨j, _, rfl⟩ := hb
    exact List.mem_of_mem_filter hp
  have hlsub : ∀ b ∈ lbl1Buckets g pairs, b.length ≤ pairs.length := by
    intro b hbm
    simp only [lbl1Buckets, List.mem_map, List.mem_range] at hbm
    obtain ⟨j, _, rfl⟩ := hbm
    exact List.length_filter_le _ _
  have hglen : (lbl1Buckets g pairs).length = g := by
    simp [lbl1Buckets]
  have hread := readBuckets_bytes e (lbl1Buckets g pairs)
    (fun b hbm p hp => hlen p (hb b hbm p hp))
    (fun b hbm p hp => hidx p (hb b hbm p hp))
    (fun b hbm => lt_of_le_of_lt (hlsub b hbm) hcnt) []
  rw [List.append_nil, hglen] at hread
  simp only [lbl1Payload, lbl1Parse]
  rw [readU32_u32bytes e g hg]
  dsimp only
  rw [hread]

/-! ## Attribute table (ATR1) and style index (NLI1), spec section 4.5

Modelled from the spec: per-entry fixed-width attribute blobs behind a
declared width and entry count, and an optional label-index → style-id
pair list. -/

/-- ATR1 section payload: 32-bit attribute width, 32-bit entry count, then
the fixed-width blobs in entry-index order. -/
def atr1Payload (e : Endianness) (w : Nat) (attrs : List (List Nat)) : List Nat :=
  u32bytes e w ++ u32bytes e attrs.length ++ attrs.flatten

/-- Read `n` consecutive blobs of `w` bytes each. -/
def readBlobs (w : Nat) : Nat → List Nat → Option (List (List Nat) × List Nat)
  | 0, bs => some ([], bs)
  | n + 1, bs =>
    if w ≤ bs.length then
      match readBlobs w n (bs.drop w) with
      | some (blobs, r) => some (bs.take w :: blobs, r)
      | none => none
    else none

/-- Parse an ATR1 payload into the declared width and the blob list. -/
def atr1Parse (e : Endianness) (payload : List Nat) :
    Option (Nat × List (List Nat)) :=
  match readU32 e payload with
  | some (w, r1) =>
    match readU32 e r1 with
    | some (n, r2) =>
      match readBlobs w n r2 with
      | some (blobs, _) => some (w, blobs)
      | none => none
    | none => none
  | none => none

theorem readBlobs_flatten (w : Nat) (attrs : List (List Nat))
    (hw : ∀ a ∈ attrs, a.length = w) (rest : List Nat) :
    readBlobs w attrs.length (attrs.flatten ++ rest) = some (attrs, rest) := by
  induction attrs with
  | nil => simp [readBlobs]
  | cons a t ih =>
    have ha : a.length = w := hw a (by simp)
    subst ha
    simp only [List.flatten_cons, List.length_cons, List.append_assoc, readBlobs]
    rw [if_pos (by simp)]
    rw [List.drop_left, List.take_left]
    rw [ih (fun b hb => hw b (by simp [hb]))]

theorem atr1Parse_payload (e : Endianness) (w : Nat) (attrs : List (List Nat))
    (hw : ∀ a ∈ attrs, a.length = w) (hwlt : w < 4294967296)
    (hn : attrs.length < 4294967296) :
    atr1Parse e (atr1Payload e w attrs) = some (w, attrs) := by
  simp only [atr1Payload, atr1Parse, List.append_assoc]
  rw [readU32_u32bytes e w hwlt]
  dsimp only
  rw [readU32_u32bytes e attrs.length hn]
  dsimp only
  have h := readBlobs_flatten w attrs hw []
  rw [List.append_nil] at h
  rw [h]

/-- NLI1 section payload: 32-bit pair count, then `(entry index, style id)`
pairs, each two 32-bit values. -/
def nli1Payload (e : Endianness) (pairs : List (Nat × Nat)) : List Nat :=
  u32bytes e pairs.length ++
    (pairs.map (fun p => u32bytes e p.1 ++ u32bytes e p.2)).flatten

/-- Read `n` consecutive `(entry index, style id)` pairs. -/
def readStylePairs (e : Endianness) : Nat → List Nat →
    Option (List (Nat × Nat) × List Nat)
  | 0, bs => some ([], bs)
  | n + 1, bs =>
    match readU32 e bs with
    | some (i, r1) =>
      match readU32 e r1 with
      | some (s, r2) =>
        match readStylePairs e n r2 with
        | some (ps, r3) => some ((i, s) :: ps, r3)
        | none => none
      | none => none
    | none => none

/-- Parse an NLI1 payload into its `(entry index, style id)` pair list. -/
def nli1Parse (e : Endianness) (payload : List Nat) : Option (List (Nat × Nat)) :=
  match readU32 e payload with
  | some (n, r1) =>
    match readStylePairs e n r1 with
    | some (ps, _) => some ps
    | none => none
  | none => none

theorem readStylePairs_bytes (e : Endianness) (pairs : List (Nat × Nat))
    (hb : ∀ p ∈ pairs, p.1 < 4294967296 ∧ p.2 < 4294967296) (rest : List Nat) :
    readStylePairs e pairs.length
      ((pairs.map (fun p => u32bytes e p.1 ++ u32bytes e p.2)).flatten ++ rest)
      = some (pairs, rest) := by
  induction pairs with
  | nil => simp [readStylePairs]
  | cons p t ih =>
    simp only [List.map_cons, List.flatten_cons, List.length_cons,
      List.append_assoc, readStylePairs]
    rw [readU32_u32bytes e p.1 (hb p (by simp)).1]
    dsimp only
    rw [readU32_u32bytes e p.2 (hb p (by simp)).2]
    dsimp only
    rw [ih (fun q hq => hb q (by simp [hq]))]

theorem nli1Parse_payload (e : Endianness) (pairs : List (Nat × Nat))
    (hb : ∀ p ∈ pairs, p.1 < 4294967296 ∧ p.2 < 4294967296)
    (hn : pairs.length < 4294967296) :
    nli1Parse e (nli1Payload e pairs) = some pairs := by
  simp only [nli1Payload, nli1Parse]
  rw [readU32_u32bytes e pairs.length hn]
  dsimp only
  have h := readStylePairs_bytes e pairs hb []
  rw [List.append_nil] at h
  rw [h]

/-! ## Text and control-tag codec (TXT2), spec section 4.6

Modelled from the spec: per-entry code-unit streams (UTF-16 pairs or UTF-8
single bytes per the header encoding flag), in which the reserved sentinel
code unit `0x000E` opens a control tag (16-bit group, 16-bit kind, 16-bit
parameter byte-length, then that many raw parameter bytes, never
text-decoded); all other code units accumulate into the current text run. -/

/-- Exclusive upper bound of a single code unit under the given encoding. -/
def unitBound : TextEncoding → Nat
  | .utf16 => 65536
  | .utf8 => 256

/-- Serialize one code unit: two bytes in the header byte order for UTF-16,
one byte for UTF-8. -/
def codeUnitBytes (enc : TextEncoding) (e : Endianness) (c : Nat) : List Nat :=
  match enc with
  | .utf16 => u16bytes e c
  | .utf8 => [c % 256]

/-- Read one code unit. -/
def readCodeUnit (enc : TextEncoding) (e : Endianness) : List Nat → Option (Nat × List Nat)
  | [] => none
  | b :: bs =>
    match enc with
    | .utf16 => readU16 e (b :: bs)
    | .utf8 => some (b, bs)

/-- Serialized bytes of one run: a text run is its code units; a control tag
is the sentinel code unit `0x0E` then group, kind, parameter byte-length as
16-bit fields followed by the raw parameter bytes. -/
def runBytes (enc : TextEncoding) (e : Endianness) : Run → List Nat
  | .text us => (us.map (codeUnitBytes enc e)).flatten
  | .controlTag g k ps =>
    codeUnitBytes enc e 14 ++ u16bytes e g ++ u16bytes e k ++
      u16bytes e ps.length ++ ps

/-- The code-unit byte stream of one entry's run list. -/
def entryStream (enc : TextEncoding) (e : Endianness) (rs : List Run) : List Nat :=
  (rs.map (runBytes enc e)).flatten

/-- Prepend a decoded code unit onto a run list, merging into a leading text
run when there is one (the decoder accumulates maximal text runs). -/
def consText (c : Nat) : List Run → List Run
  | Run.text t :: rs => Run.text (c :: t) :: rs
  | rs => Run.text [c] :: rs

theorem readU16_length (e : Endianness) (bs : List Nat) (v : Nat) (r : List Nat)
    (h : readU16 e bs = some (v, r)) : bs.length = r.length + 2 := by
  match bs with
  | [] => simp [readU16] at h
  | [a] => simp [readU16] at h
  | a :: b :: rest =>
    cases e <;> simp only [readU16] at h <;>
      (obtain ⟨-, rfl⟩ := Prod.mk.injEq .. ▸ Option.some.inj h; simp)

theorem readU32_length (e : Endianness) (bs : List Nat) (v : Nat) (r : List Nat)
    (h : readU32 e bs = some (v, r)) : bs.length = r.length + 4 := by
  match bs with
  | [] => simp [readU32] at h
  | [a] => simp [readU32] at h
  | [a, b] => simp [readU32] at h
  | [a, b, c] => simp [readU32] at h
  | a :: b :: c :: d :: rest =>
    cases e <;> simp only [readU32] at h <;>
      (obtain ⟨-, rfl⟩ := Prod.mk.injEq .. ▸ Option.some.inj h; simp)

theorem readCodeUnit_length (enc : TextEncoding) (e : Endianness) (bs : List Nat)
    (c : Nat) (r : List Nat) (h : readCodeUnit enc e bs = some (c, r)) :
    r.length < bs.length := by
  match bs with
  | [] => simp [readCodeUnit] at h
  | b :: t =>
    cases enc with
    | utf16 =>
      simp only [readCodeUnit] at h
      have := readU16_length e (b :: t) c r h
      omega
    | utf8 =>
      simp only [readCodeUnit] at h
      obtain ⟨-, rfl⟩ := Prod.mk.injEq .. ▸ Option.some.inj h
      simp

/-- Decode an entry's byte stream into its run list.  Fails on a lone
trailing byte in UTF-16 mode or on truncated tag framing
(`InvalidControlTag` in the spec's vocabulary). -/
def decodeRuns (enc : TextEncoding) (e : Endianness) (bs : List Nat) :
    Option (List Run) :=
  match hr : readCodeUnit enc e bs with
  | none => if bs.isEmpty then some [] else none
  | some (c, r) =>
    if c = 14 then
      match hg : readU16 e r with
      | none => none
      | some (g, r1) =>
        match hk : readU16 e r1 with
        | none => none
        | some (k, r2) =>
          match hn : readU16 e r2 with
          | none => none
          | some (n, r3) =>
            if n ≤ r3.length then
              (decodeRuns enc e (r3.drop n)).map
                (fun rs => Run.controlTag g k (r3.take n) :: rs)
            else none
    else
      (decodeRuns enc e r).map (consText c)
termination_by bs.length
decreasing_by
  · have h0 := readCodeUnit_length enc e bs c r hr
    have h1 := readU16_length e r _ _ hg
    have h2 := readU16_length e r1 _ _ hk
    have h3 := readU16_length e r2 _ _ hn
    simp only [List.length_drop]
    omega
  · exact readCodeUnit_length enc e bs c r hr

/-- Whether a run is a text run. -/
def Run.isText : Run → Bool
  | .text _ => true
  | .controlTag _ _ _ => false

/-- Field bounds a single run must satisfy to survive serialization: text
code units are nonzero-width, below the encoding's unit bound, and never the
tag sentinel; tag fields fit their 16-bit slots. -/
def RunOk (enc : TextEncoding) : Run → Prop
  | .text us => us ≠ [] ∧ ∀ u ∈ us, u ≠ 14 ∧ u < unitBound enc
  | .controlTag g k ps => g < 65536 ∧ k < 65536 ∧ ps.length < 65536

/-- No two adjacent runs are both text runs. -/
def noAdjacentTexts : List Run → Bool
  | [] => true
  | [_] => true
  | a :: b :: t => (!(Run.isText a && Run.isText b)) && noAdjacentTexts (b :: t)

/-- Canonical run lists: every run satisfies `RunOk` and no two adjacent
runs are both text runs (the decoder always produces maximal text runs). -/
def CanonRuns (enc : TextEncoding) (rs : List Run) : Prop :=
  (∀ r ∈ rs, RunOk enc r) ∧ noAdjacentTexts rs = true

theorem noAdjacentTexts_cons (r : Run) (t : List Run) :
    noAdjacentTexts (r :: t) = true ↔
      (∀ b ∈ t.head?, Run.isText r = false ∨ Run.isText b = false) ∧
      noAdjacentTexts t = true := by
  cases t with
  | nil => simp [noAdjacentTexts]
  | cons b t' =>
    cases hr : Run.isText r <;> cases hb : Run.isText b <;>
      simp [noAdjacentTexts, hr, hb]

instance (enc : TextEncoding) (r : Run) : Decidable (RunOk enc r) :=
  match r with
  | .text us =>
    inferInstanceAs (Decidable (us ≠ [] ∧ ∀ u ∈ us, u ≠ 14 ∧ u < unitBound enc))
  | .controlTag g k ps =>
    inferInstanceAs (Decidable (g < 65536 ∧ k < 65536 ∧ ps.length < 65536))

instance (enc : TextEncoding) (rs : List Run) : Decidable (CanonRuns enc rs) :=
  inferInstanceAs (Decidable ((∀ r ∈ rs, RunOk enc r) ∧
    noAdjacentTexts rs = true))

theorem decodeRuns_nil (enc : TextEncoding) (e : Endianness) :
    decodeRuns enc e [] = some [] := by
  unfold decodeRuns
  rfl

theorem readCodeUnit_bytes (enc : TextEncoding) (e : Endianness) (c : Nat)
    (hc : c < unitBound enc) (rest : List Nat) :
    readCodeUnit enc e (codeUnitBytes enc e c ++ rest) = some (c, rest) := by
  cases enc with
  | utf16 =>
    simp only [unitBound] at hc
    cases e <;>
      simp only [codeUnitBytes, u16bytes, List.cons_append, List.nil_append,
        readCodeUnit, readU16] <;>
      (congr 1; congr 1; omega)
  | utf8 =>
    simp only [unitBound] at hc
    simp only [codeUnitBytes, List.cons_append, List.nil_append, readCodeUnit]
    rw [Nat.mod_eq_of_lt hc]

theorem consText_of_head (c : Nat) (rs : List Run)
    (hhd : ∀ r0 ∈ rs.head?, Run.isText r0 = false) :
    consText c rs = Run.text [c] :: rs := by
  cases rs with
  | nil => rfl
  | cons r t =>
    cases r with
    | text us =>
      have := hhd (Run.text us) (by simp)
      simp [Run.isText] at this
    | controlTag g k ps => rfl

theorem decodeRuns_text_step (enc : TextEncoding) (e : Endianness) (bs : List Nat)
    (c : Nat) (r : List Nat) (h : readCodeUnit enc e bs = some (c, r))
    (hc : c ≠ 14) :
    decodeRuns enc e bs = (decodeRuns enc e r).map (consText c) := by
  conv_lhs => rw [decodeRuns]
  split
  · rename_i hr
    rw [h] at hr
    exact absurd hr (by simp)
  · rename_i c' r' hr
    rw [h] at hr
    obtain ⟨rfl, rfl⟩ := Prod.mk.injEq .. ▸ Option.some.inj hr
    rw [if_neg hc]

theorem decodeRuns_tag_step (enc : TextEncoding) (e : Endianness) (bs : List Nat)
    (g k n : Nat) (r r1 r2 r3 : List Nat)
    (h : readCodeUnit enc e bs = some (14, r))
    (hg : readU16 e r = some (g, r1)) (hk : readU16 e r1 = some (k, r2))
    (hn : readU16 e r2 = some (n, r3)) (hlen : n ≤ r3.length) :
    decodeRuns enc e bs = (decodeRuns enc e (r3.drop n)).map
      (fun rs => Run.controlTag g k (r3.take n) :: rs) := by
  conv_lhs => rw [decodeRuns]
  split
  · rename_i hr
    rw [h] at hr
    exact absurd hr (by simp)
  · rename_i c' r' hr
    rw [h] at hr
    obtain ⟨rfl, rfl⟩ := Prod.mk.injEq .. ▸ Option.some.inj hr
    rw [if_pos rfl]
    split
    · rename_i hg'
      rw [hg] at hg'
      exact absurd hg' (by simp)
    · rename_i g' r1' hg'
      rw [hg] at hg'
      obtain ⟨rfl, rfl⟩ := Prod.mk.injEq .. ▸ Option.some.inj hg'
      split
      · rename_i hk'
        rw [hk] at hk'
        exact absurd hk' (by simp)
      · rename_i k' r2' hk'
        rw [hk] at hk'
        obtain ⟨rfl, rfl⟩ := Prod.mk.injEq .. ▸ Option.some.inj hk'
        split
        · rename_i hn'
          rw [hn] at hn'
          exact absurd hn' (by simp)
        · rename_i n' r3' hn'
          rw [hn] at hn'
          obtain ⟨rfl, rfl⟩ := Prod.mk.injEq .. ▸ Option.some.inj hn'
          rw [if_pos hlen]

theorem decodeRuns_append_text (enc : TextEncoding) (e : Endianness)
    (rest : List Run)
    (hrest : decodeRuns enc e (entryStream enc e rest) = some rest)
    (hhd : ∀ r0 ∈ rest.head?, Run.isText r0 = false) :
    ∀ us, us ≠ [] → (∀ u ∈ us, u ≠ 14 ∧ u < unitBound enc) →
      decodeRuns enc e
          ((us.map (codeUnitBytes enc e)).flatten ++ entryStream enc e rest)
        = some (Run.text us :: rest) := by
  intro us
  induction us with
  | nil => intro h; exact absurd rfl h
  | cons u t ih =>
    intro _ hu
    have hu0 := hu u (by simp)
    rw [List.map_cons, List.flatten_cons, List.append_assoc]
    rw [decodeRuns_text_step enc e _ u _
      (readCodeUnit_bytes enc e u hu0.2 _) hu0.1]
    cases t with
    | nil =>
      simp only [List.map_nil, List.flatten_nil, List.nil_append]
      rw [hrest]
      simp only [Option.map_some']
      rw [consText_of_head u rest hhd]
    | cons v t' =>
      rw [ih (by simp) (fun x hx => hu x (by simp [hx]))]
      simp only [Option.map_some']
      rfl

theorem decodeRuns_entryStream (enc : TextEncoding) (e : Endianness)
    (rs : List Run) (h : CanonRuns enc rs) :
    decodeRuns enc e (entryStream enc e rs) = some rs := by
  induction rs with
  | nil => exact decodeRuns_nil enc e
  | cons r t ih =>
    obtain ⟨hok, hch⟩ := h
    rw [noAdjacentTexts_cons] at hch
    have iht := ih ⟨fun x hx => hok x (by simp [hx]), hch.2⟩
    cases r with
    | text us =>
      have hr := hok (Run.text us) (by simp)
      obtain ⟨hne, hunits⟩ := hr
      have hhd : ∀ r0 ∈ t.head?, Run.isText r0 = false := by
        intro r0 h0
        rcases hch.1 r0 h0 with h | h
        · simp [Run.isText] at h
        · exact h
      show decodeRuns enc e (entryStream enc e (Run.text us :: t)) = _
      rw [show entryStream enc e (Run.text us :: t)
          = (us.map (codeUnitBytes enc e)).flatten ++ entryStream enc e t by
        simp [entryStream, runBytes]]
      exact decodeRuns_append_text enc e t iht hhd us hne hunits
    | controlTag g k ps =>
      have hr := hok (Run.controlTag g k ps) (by simp)
      obtain ⟨hg, hk, hps⟩ := hr
      have hstream : entryStream enc e (Run.controlTag g k ps :: t)
          = codeUnitBytes enc e 14 ++ (u16bytes e g ++ (u16bytes e k ++
            (u16bytes e ps.length ++ (ps ++ entryStream enc e t)))) := by
        simp [entryStream, runBytes, List.append_assoc]
      rw [hstream]
      have h14 : (14 : Nat) < unitBound enc := by
        cases enc <;> simp [unitBound]
      rw [decodeRuns_tag_step enc e _ g k ps.length
        (u16bytes e g ++ (u16bytes e k ++ (u16bytes e ps.length ++ (ps ++ entryStream enc e t))))
        (u16bytes e k ++ (u16bytes e ps.length ++ (ps ++ entryStream enc e t)))
        (u16bytes e ps.length ++ (ps ++ entryStream enc e t))
        (ps ++ entryStream enc e t)
        (readCodeUnit_bytes enc e 14 h14 _)
        (readU16_u16bytes e g hg _)
        (readU16_u16bytes e k hk _)
        (readU16_u16bytes e ps.length hps _)
        (by simp)]
      rw [List.take_left, List.drop_left, iht]
      rfl

/-- Offsets of consecutive byte streams laid out starting at `base`. -/
def offsetsFrom (base : Nat) : List (List Nat) → List Nat
  | [] => []
  | s :: t => base :: offsetsFrom (base + s.length) t

/-- TXT2 section payload: 32-bit entry count, one 32-bit offset per entry
(relative to the payload start, recomputed from the actual emitted byte
counts), then the concatenated entry streams. -/
def txt2Payload (e : Endianness) (streams : List (List Nat)) : List Nat :=
  u32bytes e streams.length ++
    (((offsetsFrom (4 + 4 * streams.length) streams).map (u32bytes e)).flatten ++
      streams.flatten)

/-- Read `n` consecutive 32-bit values. -/
def readU32List (e : Endianness) : Nat → List Nat → Option (List Nat × List Nat)
  | 0, bs => some ([], bs)
  | n + 1, bs =>
    match readU32 e bs with
    | some (v, r) =>
      match readU32List e n r with
      | some (vs, r') => some (v :: vs, r')
      | none => none
    | none => none

/-- Slice a payload at the given offsets: each entry's bytes run from its
offset to the next entry's offset, the last to the payload end. -/
def sliceAll (payload : List Nat) : List Nat → List (List Nat)
  | [] => []
  | [a] => [payload.drop a]
  | a :: b :: t => ((payload.drop a).take (b - a)) :: sliceAll payload (b :: t)

/-- Decode every sliced entry stream. -/
def decodeAllRuns (enc : TextEncoding) (e : Endianness) :
    List (List Nat) → Option (List (List Run))
  | [] => some []
  | s :: t =>
    match decodeRuns enc e s with
    | some rs =>
      match decodeAllRuns enc e t with
      | some rss => some (rs :: rss)
      | none => none
    | none => none

/-- Parse a TXT2 payload into the per-entry run lists, in entry-index order. -/
def txt2Parse (enc : TextEncoding) (e : Endianness) (payload : List Nat) :
    Option (List (List Run)) :=
  match readU32 e payload with
  | some (n, r1) =>
    match readU32List e n r1 with
    | some (offs, _) => decodeAllRuns enc e (sliceAll payload offs)
    | none => none
  | none => none

theorem readU32List_bytes (e : Endianness) (vs : List Nat)
    (hb : ∀ v ∈ vs, v < 4294967296) (rest : List Nat) :
    readU32List e vs.length ((vs.map (u32bytes e)).flatten ++ rest)
      = some (vs, rest) := by
  induction vs with
  | nil => simp [readU32List]
  | cons v t ih =>
    simp only [List.map_cons, List.flatten_cons, List.length_cons,
      List.append_assoc, readU32List]
    rw [readU32_u32bytes e v (hb v (by simp))]
    dsimp only
    rw [ih (fun w hw => hb w (by simp [hw]))]

theorem offsetsFrom_length (streams : List (List Nat)) :
    ∀ base, (offsetsFrom base streams).length = streams.length := by
  induction streams with
  | nil => intro base; rfl
  | cons s t ih => intro base; simp [offsetsFrom, ih]

theorem offsetsFrom_le (streams : List (List Nat)) :
    ∀ base x, x ∈ offsetsFrom base streams →
      x ≤ base + (streams.map List.length).sum := by
  induction streams with
  | nil => intro base x hx; simp [offsetsFrom] at hx
  | cons s t ih =>
    intro base x hx
    simp only [offsetsFrom, List.mem_cons] at hx
    rcases hx with rfl | hx
    · simp
    · have := ih (base + s.length) x hx
      simp only [List.map_cons, List.sum_cons]
      omega

theorem map_u32bytes_flatten_length (e : Endianness) (l : List Nat) :
    ((l.map (u32bytes e)).flatten).length = 4 * l.length := by
  induction l with
  | nil => rfl
  | cons v t ih => simp [ih, u32bytes_length]; omega

theorem sliceAll_offsetsFrom (streams : List (List Nat)) :
    ∀ prefix0 : List Nat,
      sliceAll (prefix0 ++ streams.flatten) (offsetsFrom prefix0.length streams)
        = streams := by
  induction streams with
  | nil => intro p; rfl
  | cons s t ih =>
    intro p
    cases t with
    | nil =>
      simp only [offsetsFrom, List.flatten_cons, List.flatten_nil,
        List.append_nil, sliceAll]
      rw [List.drop_left]
    | cons v t' =>
      show sliceAll (p ++ (s :: v :: t').flatten)
          (p.length :: offsetsFrom (p.length + s.length) (v :: t')) = _
      have hoff : offsetsFrom (p.length + s.length) (v :: t')
          = (p.length + s.length) :: offsetsFrom (p.length + s.length + v.length) t' := rfl
      rw [hoff]
      simp only [sliceAll]
      have h1 : ((p ++ (s :: v :: t').flatten).drop p.length).take
          (p.length + s.length - p.length) = s := by
        rw [List.drop_left, List.flatten_cons]
        rw [show p.length + s.length - p.length = s.length by omega]
        exact List.take_left s ((v :: t').flatten)
      have h2 : sliceAll (p ++ (s :: v :: t').flatten)
          ((p.length + s.length) :: offsetsFrom (p.length + s.length + v.length) t')
          = v :: t' := by
        rw [show p ++ (s :: v :: t').flatten = (p ++ s) ++ (v :: t').flatten by
          simp [List.append_assoc]]
        rw [show (p.length + s.length) :: offsetsFrom (p.length + s.length + v.length) t'
            = offsetsFrom (p ++ s).length (v :: t') by
          simp [offsetsFrom, List.length_append]]
        exact ih (p ++ s)
      rw [h1, h2]

theorem decodeAllRuns_map (enc : TextEncoding) (e : Endianness)
    (rss : List (List Run)) (h : ∀ rs ∈ rss, CanonRuns enc rs) :
    decodeAllRuns enc e (rss.map (entryStream enc e)) = some rss := by
  induction rss with
  | nil => rfl
  | cons rs t ih =>
    simp only [List.map_cons, decodeAllRuns]
    rw [decodeRuns_entryStream enc e rs (h rs (by simp))]
    rw [ih (fun x hx => h x (by simp [hx]))]

theorem txt2Parse_payload (enc : TextEncoding) (e : Endianness)
    (rss : List (List Run)) (h : ∀ rs ∈ rss, CanonRuns enc rs)
    (hn : rss.length < 4294967296)
    (hsz : 4 + 4 * rss.length
      + ((rss.map (entryStream enc e)).map List.length).sum < 4294967296) :
    txt2Parse enc e (txt2Payload e (rss.map (entryStream enc e))) = some rss := by
  set streams := rss.map (entryStream enc e) with hstreams
  have hslen : streams.length = rss.length := by simp [hstreams]
  have hoffb : ∀ x ∈ offsetsFrom (4 + 4 * streams.length) streams,
      x < 4294967296 := by
    intro x hx
    have := offsetsFrom_le streams (4 + 4 * streams.length) x hx
    omega
  simp only [txt2Parse, txt2Payload]
  rw [readU32_u32bytes e streams.length (by omega)]
  dsimp only
  have hread := readU32List_bytes e (offsetsFrom (4 + 4 * streams.length) streams)
    hoffb streams.flatten
  rw [offsetsFrom_length] at hread
  rw [hread]
  dsimp only
  have hpre : (u32bytes e streams.length ++
      ((offsetsFrom (4 + 4 * streams.length) streams).map (u32bytes e)).flatten).length
      = 4 + 4 * streams.length := by
    rw [List.length_append, u32bytes_length, map_u32bytes_flatten_length,
      offsetsFrom_length]
  have hslice := sliceAll_offsetsFrom streams
    (u32bytes e streams.length ++
      ((offsetsFrom (4 + 4 * streams.length) streams).map (u32bytes e)).flatten)
  rw [hpre] at hslice
  rw [← List.append_assoc]
  rw [hslice]
  exact decodeAllRuns_map enc e rss h

/-! ## Section framing (spec section 4.2) and header codec (spec section 4.3)

Modelled from the spec: each section is a 4-byte magic, a 4-byte payload
length in the header byte order, 8 reserved bytes, the payload, and
zero-padding to the next 16-byte boundary.  The 32-byte header is the fixed
magic signature, byte-order mark, reserved byte, encoding flag, version,
section count, reserved bytes, total file size, then reserved bytes.
Serializers take the reserved/padding byte contents and the re-derived
fields (section count, file size) as explicit parameters so that
"well-formed input modulo re-derived fields" is expressible; the canonical
writer fixes them (zeros, recomputed count and size).  The reader skips
reserved/padding bytes and re-derives count and size rather than trusting
them. -/

/-- Padding needed after `n` payload bytes to reach a 16-byte boundary
(section headers are 16 bytes and sections start 16-aligned, so only the
payload length matters). -/
def padTo16 (n : Nat) : Nat := (16 - n % 16) % 16

/-- Section bytes with explicit reserved-byte and padding-byte contents. -/
def sectionBytesS (e : Endianness) (magic payload res8 pad : List Nat) : List Nat :=
  magic ++ u32bytes e payload.length ++ res8 ++ payload ++ pad

/-- Canonical section bytes: zero reserved bytes and zero padding. -/
def sectionBytes (e : Endianness) (magic payload : List Nat) : List Nat :=
  sectionBytesS e magic payload (List.replicate 8 0)
    (List.replicate (padTo16 payload.length) 0)

/-- Parse the section list: read each magic and payload length, skip the
reserved bytes, take the payload, skip the padding, until the buffer ends. -/
def parseSections (e : Endianness) (bs : List Nat) :
    Option (List (List Nat × List Nat)) :=
  if hbs : bs = [] then some []
  else
    match hl : readU32 e (bs.drop 4) with
    | none => none
    | some (len, r1) =>
      if hfit : len + padTo16 len ≤ (r1.drop 8).length then
        match parseSections e ((r1.drop 8).drop (len + padTo16 len)) with
        | some ss => some ((bs.take 4, (r1.drop 8).take len) :: ss)
        | none => none
      else none
termination_by bs.length
decreasing_by
  have h4 := readU32_length e (bs.drop 4) len r1 hl
  simp only [List.length_drop] at *
  omega

theorem parseSections_nil (e : Endianness) : parseSections e [] = some [] := by
  unfold parseSections
  rfl

theorem parseSections_cons (e : Endianness) (magic payload res8 pad rest : List Nat)
    (hm : magic.length = 4) (hr8 : res8.length = 8)
    (hpad : pad.length = padTo16 payload.length)
    (hlen : payload.length < 4294967296) :
    parseSections e (sectionBytesS e magic payload res8 pad ++ rest)
      = (parseSections e rest).map (fun ss => (magic, payload) :: ss) := by
  have hne : sectionBytesS e magic payload res8 pad ++ rest ≠ [] := by
    simp only [sectionBytesS]
    intro h
    have := congrArg List.length h
    simp [hm] at this
  have hdrop4 : (sectionBytesS e magic payload res8 pad ++ rest).drop 4
      = u32bytes e payload.length ++ (res8 ++ (payload ++ (pad ++ rest))) := by
    simp only [sectionBytesS, List.append_assoc]
    rw [← hm]
    exact List.drop_left magic _
  have htake4 : (sectionBytesS e magic payload res8 pad ++ rest).take 4 = magic := by
    simp only [sectionBytesS, List.append_assoc]
    rw [← hm]
    exact List.take_left magic _
  conv_lhs => rw [parseSections]
  rw [dif_neg hne]
  split
  · rename_i hl
    rw [hdrop4, readU32_u32bytes e payload.length hlen] at hl
    exact absurd hl (by simp)
  · rename_i len r1 hl
    rw [hdrop4, readU32_u32bytes e payload.length hlen] at hl
    obtain ⟨rfl, rfl⟩ := Prod.mk.injEq .. ▸ Option.some.inj hl
    have hdrop8 : ((res8 ++ (payload ++ (pad ++ rest))).drop 8)
        = payload ++ (pad ++ rest) := by
      rw [← hr8]
      exact List.drop_left res8 _
    rw [hdrop8]
    have hfit : payload.length + padTo16 payload.length
        ≤ (payload ++ (pad ++ rest)).length := by
      simp only [List.length_append, hpad]
      omega
    rw [dif_pos hfit]
    have htakeP : (payload ++ (pad ++ rest)).take payload.length = payload :=
      List.take_left payload _
    have hdropP : (payload ++ (pad ++ rest)).drop
        (payload.length + padTo16 payload.length) = rest := by
      rw [show payload ++ (pad ++ rest) = (payload ++ pad) ++ rest by
        simp [List.append_assoc]]
      rw [show payload.length + padTo16 payload.length = (payload ++ pad).length by
        simp [List.length_append, hpad]]
      exact List.drop_left _ _
    rw [htakeP, hdropP, htake4]
    cases parseSections e rest <;> rfl

/-- The fixed 8-byte MSBT magic signature. -/
def msbtMagic : List Nat := [77, 83, 103, 83, 116, 100, 66, 110]

/-- The byte-order mark, written in the file's own byte order. -/
def bomBytes : Endianness → List Nat
  | .little => [255, 254]
  | .big => [254, 255]

/-- The encoding flag byte: 0 = UTF-16, 1 = UTF-8. -/
def encodingByte : TextEncoding → Nat
  | .utf16 => 0
  | .utf8 => 1

/-- Header bytes with explicit reserved-byte contents and the stored section
count and total file size (re-derived fields) as parameters. -/
def headerBytesS (e : Endianness) (enc : TextEncoding) (version : Nat)
    (res1 : List Nat) (secCount : Nat) (res2 : List Nat) (fileSize : Nat)
    (res10 : List Nat) : List Nat :=
  msbtMagic ++ bomBytes e ++ res1 ++ [encodingByte enc] ++ u16bytes e version ++
    u16bytes e secCount ++ res2 ++ u32bytes e fileSize ++ res10

/-- Parse the 32-byte header: validate the magic (`BadMagic` otherwise),
read the byte-order mark and encoding flag and version, and skip the stored
section count and file size (re-derived on write, not trusted on read).
Returns the remaining bytes after the header. -/
def headerParse (bs : List Nat) :
    Except MsbtError (Endianness × TextEncoding × Nat × List Nat) :=
  if bs.take 8 = msbtMagic then
    match (if (bs.drop 8).take 2 = [255, 254] then some Endianness.little
           else if (bs.drop 8).take 2 = [254, 255] then some Endianness.big
           else none) with
    | none => .error .badMagic
    | some e =>
      match (bs.drop 11).head? with
      | none => .error .unexpectedEof
      | some encb =>
        match (if encb = 0 then some TextEncoding.utf16
               else if encb = 1 then some TextEncoding.utf8 else none) with
        | none => .error .badMagic
        | some enc =>
          match readU16 e (bs.drop 12) with
          | none => .error .unexpectedEof
          | some (version, _) =>
            if 32 ≤ bs.length then .ok (e, enc, version, bs.drop 32)
            else .error .unexpectedEof
  else .error .badMagic

theorem bomBytes_length (e : Endianness) : (bomBytes e).length = 2 := by
  cases e <;> rfl

theorem headerParse_bytes (e : Endianness) (enc : TextEncoding) (version : Nat)
    (res1 : List Nat) (secCount : Nat) (res2 : List Nat) (fileSize : Nat)
    (res10 : List Nat) (body : List Nat)
    (h1 : res1.length = 1) (h2 : res2.length = 2) (h10 : res10.length = 10)
    (hv : version < 65536) :
    headerParse (headerBytesS e enc version res1 secCount res2 fileSize res10 ++ body)
      = .ok (e, enc, version, body) := by
  set bs := headerBytesS e enc version res1 secCount res2 fileSize res10 ++ body
    with hbs
  have hshape : bs = msbtMagic ++ (bomBytes e ++ (res1 ++ ([encodingByte enc] ++
      (u16bytes e version ++ (u16bytes e secCount ++ (res2 ++
      (u32bytes e fileSize ++ (res10 ++ body)))))))) := by
    simp [hbs, headerBytesS, List.append_assoc]
  have htake8 : bs.take 8 = msbtMagic := by
    rw [hshape]; exact List.take_left' rfl
  have hdrop8 : bs.drop 8 = bomBytes e ++ (res1 ++ ([encodingByte enc] ++
      (u16bytes e version ++ (u16bytes e secCount ++ (res2 ++
      (u32bytes e fileSize ++ (res10 ++ body))))))) := by
    rw [hshape]; exact List.drop_left' rfl
  have hbom : (bs.drop 8).take 2 = bomBytes e := by
    rw [hdrop8]; exact List.take_left' (bomBytes_length e)
  have hdrop11 : bs.drop 11 = encodingByte enc ::
      (u16bytes e version ++ (u16bytes e secCount ++ (res2 ++
      (u32bytes e fileSize ++ (res10 ++ body))))) := by
    rw [show (11 : Nat) = 8 + 3 by rfl, ← List.drop_drop, hdrop8]
    rw [show (3 : Nat) = 2 + 1 by rfl, ← List.drop_drop]
    rw [List.drop_left' (bomBytes_length e), List.drop_left' h1]
    rfl
  have hdrop12 : bs.drop 12 = u16bytes e version ++ (u16bytes e secCount ++
      (res2 ++ (u32bytes e fileSize ++ (res10 ++ body)))) := by
    rw [show (12 : Nat) = 11 + 1 by rfl, ← List.drop_drop, hdrop11]
    rfl
  have hlen : bs.length = 32 + body.length := by
    rw [hshape]
    simp only [List.length_append, List.length_cons, List.length_nil,
      u16bytes_length, u32bytes_length, bomBytes_length, h1, h2, h10, msbtMagic]
    omega
  have hdrop32 : bs.drop 32 = body := by
    rw [hbs]
    refine List.drop_left' ?_
    simp only [headerBytesS, List.length_append, List.length_cons,
      List.length_nil, u16bytes_length, u32bytes_length, bomBytes_length,
      h1, h2, h10, msbtMagic]
    try omega
  rw [headerParse.eq_def]
  rw [htake8, if_pos rfl, hbom, hdrop11, hdrop12]
  have hbomsel : (if bomBytes e = [255, 254] then some Endianness.little
      else if bomBytes e = [254, 255] then some Endianness.big
      else none) = some e := by
    cases e <;> simp [bomBytes]
  rw [hbomsel]
  dsimp only [List.head?]
  have hencsel : (if encodingByte enc = 0 then some TextEncoding.utf16
      else if encodingByte enc = 1 then some TextEncoding.utf8
      else none) = some enc := by
    cases enc <;> simp [encodingByte]
  rw [hencsel]
  dsimp only
  rw [readU16_u16bytes e version hv]
  dsimp only
  rw [if_pos (by omega), hdrop32]

/-! ## Whole-document codec (spec sections 2, 4.3–4.6, 6)

Modelled from the spec: `Msyt::from_msbt_bytes` / `Msyt::into_msbt_bytes`
of the external codec crate.  The canonical writer emits the header then
the LBL1, ATR1, optional NLI1 and TXT2 sections, recomputing every bucket
placement, offset, padding, section count and file size; the reader
re-derives these rather than trusting stored values. -/

/-- `"LBL1"` section magic. -/
def lbl1Magic : List Nat := [76, 66, 76, 49]

/-- `"ATR1"` section magic. -/
def atr1Magic : List Nat := [65, 84, 82, 49]

/-- `"NLI1"` section magic. -/
def nli1Magic : List Nat := [78, 76, 73, 49]

/-- `"TXT2"` section magic. -/
def txt2Magic : List Nat := [84, 88, 84, 50]

/-- The document's labels paired with their dense entry indices `0..n`. -/
def docLabelPairs (d : Document) : List (List Nat × Nat) :=
  d.entries.enum.map (fun p => (p.2.1, p.1))

/-- The per-entry content run lists, in entry-index order. -/
def docContents (d : Document) : List (List Run) :=
  d.entries.map (fun p => p.2.contents)

/-- The per-entry attribute blobs, in entry-index order. -/
def docAttrs (d : Document) : List (List Nat) :=
  d.entries.map (fun p => p.2.attributes)

/-- The document-uniform attribute byte width (taken from the first entry). -/
def docWidth (d : Document) : Nat :=
  match d.entries with
  | [] => 0
  | p :: _ => p.2.attributes.length

/-- The `(entry index, style id)` pairs of the entries that carry a style. -/
def docStylePairs (d : Document) : List (Nat × Nat) :=
  d.entries.enum.filterMap (fun p => (p.2.2.style).map (fun s => (p.1, s)))

/-- The document's canonical LBL1 payload. -/
def dLbl1 (d : Document) : List Nat :=
  lbl1Payload d.byteOrder (bucketCountFor d.entries.length) (docLabelPairs d)

/-- The document's canonical ATR1 payload. -/
def dAtr1 (d : Document) : List Nat :=
  atr1Payload d.byteOrder (docWidth d) (docAttrs d)

/-- The document's canonical NLI1 payload. -/
def dNli1 (d : Document) : List Nat :=
  nli1Payload d.byteOrder (docStylePairs d)

/-- The document's canonical TXT2 payload. -/
def dTxt2 (d : Document) : List Nat :=
  txt2Payload d.byteOrder
    ((docContents d).map (entryStream d.encoding d.byteOrder))

/-- The non-essential byte content of an encoded file: reserved bytes,
padding bytes, and the stored (re-derived on write) section count and total
file size.  Everything else an MSBT file carries is determined by the
document. -/
structure Slack where
  res1 : List Nat
  secCount : Nat
  res2 : List Nat
  fileSize : Nat
  res10 : List Nat
  lblRes8 : List Nat
  lblPad : List Nat
  atrRes8 : List Nat
  atrPad : List Nat
  nliRes8 : List Nat
  nliPad : List Nat
  txtRes8 : List Nat
  txtPad : List Nat
deriving DecidableEq, Repr

/-- Structural validity of slack: every reserved/padding block has the
length the format assigns to its position.  Contents are unconstrained. -/
def SlackOk (d : Document) (s : Slack) : Prop :=
  s.res1.length = 1 ∧ s.res2.length = 2 ∧ s.res10.length = 10 ∧
  s.lblRes8.length = 8 ∧ s.lblPad.length = padTo16 (dLbl1 d).length ∧
  s.atrRes8.length = 8 ∧ s.atrPad.length = padTo16 (dAtr1 d).length ∧
  s.nliRes8.length = 8 ∧ s.nliPad.length = padTo16 (dNli1 d).length ∧
  s.txtRes8.length = 8 ∧ s.txtPad.length = padTo16 (dTxt2 d).length

instance (d : Document) (s : Slack) : Decidable (SlackOk d s) :=
  inferInstanceAs (Decidable (s.res1.length = 1 ∧ s.res2.length = 2 ∧
    s.res10.length = 10 ∧
    s.lblRes8.length = 8 ∧ s.lblPad.length = padTo16 (dLbl1 d).length ∧
    s.atrRes8.length = 8 ∧ s.atrPad.length = padTo16 (dAtr1 d).length ∧
    s.nliRes8.length = 8 ∧ s.nliPad.length = padTo16 (dNli1 d).length ∧
    s.txtRes8.length = 8 ∧ s.txtPad.length = padTo16 (dTxt2 d).length))

/-- The section list bytes of a document, with explicit slack. -/
def msbtBodyS (d : Document) (s : Slack) : List Nat :=
  sectionBytesS d.byteOrder lbl1Magic (dLbl1 d) s.lblRes8 s.lblPad ++
  (sectionBytesS d.byteOrder atr1Magic (dAtr1 d) s.atrRes8 s.atrPad ++
  ((if docStylePairs d = [] then []
    else sectionBytesS d.byteOrder nli1Magic (dNli1 d) s.nliRes8 s.nliPad) ++
  sectionBytesS d.byteOrder txt2Magic (dTxt2 d) s.txtRes8 s.txtPad))

/-- A whole encoded file with explicit slack. -/
def msbtBytesS (d : Document) (s : Slack) : List Nat :=
  headerBytesS d.byteOrder d.encoding d.version s.res1 s.secCount s.res2
    s.fileSize s.res10 ++ msbtBodyS d s

/-- Canonical slack: zeroed reserved and padding bytes, and the recomputed
section count and total file size. -/
def canonSlack (d : Document) : Slack :=
  let base : Slack :=
    { res1 := List.replicate 1 0
      secCount := if docStylePairs d = [] then 3 else 4
      res2 := List.replicate 2 0
      fileSize := 0
      res10 := List.replicate 10 0
      lblRes8 := List.replicate 8 0
      lblPad := List.replicate (padTo16 (dLbl1 d).length) 0
      atrRes8 := List.replicate 8 0
      atrPad := List.replicate (padTo16 (dAtr1 d).length) 0
      nliRes8 := List.replicate 8 0
      nliPad := List.replicate (padTo16 (dNli1 d).length) 0
      txtRes8 := List.replicate 8 0
      txtPad := List.replicate (padTo16 (dTxt2 d).length) 0 }
  { base with fileSize := 32 + (msbtBodyS d base).length }

/-- Encode a document to MSBT bytes.  Fails with `DuplicateLabel` exactly
when two entries share a label string; hash-bucket collisions are placed in
the same bucket's linear list and are never an error. -/
def msbtEncode (d : Document) : Except MsbtError (List Nat) :=
  if (d.entries.map Prod.fst).Nodup then .ok (msbtBytesS d (canonSlack d))
  else .error .duplicateLabel

/-- Decode MSBT bytes to a document: parse the header, the section list,
the required LBL1/ATR1/TXT2 sections and the optional NLI1 section, and
assemble entries in label-table (bucket) order, fetching each entry's
attributes, style and contents by its stored dense index. -/
def msbtDecode (bs : List Nat) : Except MsbtError Document :=
  match headerParse bs with
  | .error err => .error err
  | .ok (e, enc, version, rest) =>
    match parseSections e rest with
    | none => .error .unexpectedEof
    | some sections =>
      match sections.lookup lbl1Magic with
      | none => .error .missingRequiredSection
      | some lblP =>
        match lbl1Parse e lblP with
        | none => .error .unexpectedEof
        | some buckets =>
          match sections.lookup atr1Magic with
          | none => .error .missingRequiredSection
          | some atrP =>
            match atr1Parse e atrP with
            | none => .error .unexpectedEof
            | some (_, blobs) =>
              if blobs.length = buckets.flatten.length then
                match sections.lookup txt2Magic with
                | none => .error .missingRequiredSection
                | some txtP =>
                  match txt2Parse enc e txtP with
                  | none => .error .invalidControlTag
                  | some contents =>
                    match sections.lookup nli1Magic with
                    | none =>
                      .ok { byteOrder := e, encoding := enc, version := version,
                            entries := buckets.flatten.map (fun p =>
                              (p.1, { attributes := blobs.getD p.2 [],
                                      style := none,
                                      contents := contents.getD p.2 [] })) }
                    | some nliP =>
                      match nli1Parse e nliP with
                      | none => .error .unexpectedEof
                      | some styles =>
                        .ok { byteOrder := e, encoding := enc, version := version,
                              entries := buckets.flatten.map (fun p =>
                                (p.1, { attributes := blobs.getD p.2 [],
                                        style := styles.lookup p.2,
                                        contents := contents.getD p.2 [] })) }
              else .error .malformedAttributeTable

theorem lookup_none_of_lt (ps : List (Nat × Nat)) (k : Nat)
    (h : ∀ p ∈ ps, k < p.1) : ps.lookup k = none := by
  induction ps with
  | nil => rfl
  | cons p t ih =>
    obtain ⟨a, b⟩ := p
    have ha := h (a, b) (by simp)
    simp only [List.lookup]
    rw [show (k == a) = false by simp; omega]
    exact ih (fun q hq => h q (by simp [hq]))

theorem mem_filterMap_style_key {α : Type} (g : α → Option Nat) (l : List α)
    (m : Nat) (p : Nat × Nat)
    (hp : p ∈ (l.enumFrom m).filterMap
      (fun q => (g q.2).map (fun s => (q.1, s)))) : m ≤ p.1 := by
  rw [List.mem_filterMap] at hp
  obtain ⟨q, hq, hgq⟩ := hp
  obtain ⟨s, hs, rfl⟩ := Option.map_eq_some'.mp hgq
  obtain ⟨i, a⟩ := q
  exact (List.mem_enumFrom hq).1

theorem lookup_enum_filterMap {α : Type} (g : α → Option Nat) :
    ∀ (l : List α) (k j : Nat),
      ((l.enumFrom k).filterMap (fun q => (g q.2).map (fun s => (q.1, s)))).lookup
          (k + j)
        = (l[j]?).bind g := by
  intro l
  induction l with
  | nil => intro k j; simp
  | cons a t ih =>
    intro k j
    have hstep : (a :: t).enumFrom k = (k, a) :: t.enumFrom (k + 1) := rfl
    rw [hstep, List.filterMap_cons]
    cases hga : g a with
    | some s =>
      simp only [Option.map_some']
      cases j with
      | zero =>
        simp only [Nat.add_zero, List.lookup, beq_self_eq_true]
        simp [hga]
      | succ j' =>
        simp only [List.lookup]
        rw [show (k + (j' + 1) == k) = false by simp]
        rw [show k + (j' + 1) = (k + 1) + j' by omega, ih (k + 1) j']
        simp
    | none =>
      simp only [Option.map_none']
      cases j with
      | zero =>
        rw [Nat.add_zero]
        rw [lookup_none_of_lt _ k (fun p hp => by
          have := mem_filterMap_style_key g t (k + 1) p hp
          omega)]
        simp [hga]
      | succ j' =>
        rw [show k + (j' + 1) = (k + 1) + j' by omega, ih (k + 1) j']
        simp

theorem lookup_docStylePairs (d : Document) (j : Nat) (hj : j < d.entries.length) :
    (docStylePairs d).lookup j = (d.entries[j]).2.style := by
  have h := lookup_enum_filterMap (fun ent : List Nat × Entry => ent.2.style)
    d.entries 0 j
  simp only [Nat.zero_add] at h
  rw [docStylePairs, show d.entries.enum = d.entries.enumFrom 0 from rfl]
  rw [h, List.getElem?_eq_getElem hj]
  rfl

theorem docStylePairs_nil (d : Document) (h : docStylePairs d = [])
    (j : Nat) (hj : j < d.entries.length) : (d.entries[j]).2.style = none := by
  rw [docStylePairs, List.filterMap_eq_nil_iff] at h
  have hmem : (j, d.entries[j]) ∈ d.entries.enum := by
    rw [List.mem_iff_getElem]
    refine ⟨j, by simpa [List.enum_length] using hj, ?_⟩
    exact List.getElem_enum _ _ _
  have := h _ hmem
  simpa using this

theorem docLabelPairs_length (d : Document) :
    (docLabelPairs d).length = d.entries.length := by
  simp [docLabelPairs, List.enum_length]

theorem mem_docLabelPairs (d : Document) (p : List Nat × Nat)
    (hp : p ∈ docLabelPairs d) :
    p.2 < d.entries.length ∧ ∃ q ∈ d.entries, p.1 = q.1 := by
  simp only [docLabelPairs, List.mem_map] at hp
  obtain ⟨q, hq, rfl⟩ := hp
  obtain ⟨i, a⟩ := q
  have hm := List.mem_enumFrom (show (i, a) ∈ d.entries.enumFrom 0 from hq)
  obtain ⟨-, hlt, heq⟩ := hm
  refine ⟨by simpa using hlt, ⟨a, ?_, rfl⟩⟩
  rw [heq]
  exact List.getElem_mem _

theorem mem_docStylePairs_fst (d : Document) (q : Nat × Nat)
    (hq : q ∈ docStylePairs d) : q.1 < d.entries.length := by
  simp only [docStylePairs, List.mem_filterMap] at hq
  obtain ⟨p, hp, hmap⟩ := hq
  obtain ⟨s, hs, rfl⟩ := Option.map_eq_some'.mp hmap
  obtain ⟨i, a⟩ := p
  have hm := List.mem_enumFrom (show (i, a) ∈ d.entries.enumFrom 0 from hp)
  simpa using hm.2.1

theorem bucketCountFor_lt (n : Nat) (h : n < 4294967296) :
    bucketCountFor n < 4294967296 := by
  unfold bucketCountFor
  split <;> omega

theorem docStylePairs_length_le (d : Document) :
    (docStylePairs d).length ≤ d.entries.length := by
  calc (docStylePairs d).length ≤ d.entries.enum.length :=
        List.length_filterMap_le _ _
    _ = d.entries.length := List.enum_length

theorem dTxt2_length (d : Document) :
    (dTxt2 d).length = 4 + 4 * d.entries.length +
      (((docContents d).map (entryStream d.encoding d.byteOrder)).map
        List.length).sum := by
  have hsl : ((docContents d).map (entryStream d.encoding d.byteOrder)).length
      = d.entries.length := by
    simp [docContents]
  simp only [dTxt2, txt2Payload, List.length_append, u32bytes_length]
  rw [map_u32bytes_flatten_length, offsetsFrom_length, List.length_flatten, hsl]
  omega

/-- Document well-formedness for binary serialization: unique labels, dense
index and size bounds within the 32-bit fields, bucket-order entry
enumeration (spec section 3), document-uniform attribute width, canonical
run lists, and style ids within bounds. -/
def DocCanon (d : Document) : Prop :=
  (d.entries.map Prod.fst).Nodup ∧
  d.entries.length < 4294967296 ∧
  (∀ p ∈ d.entries, p.1.length < 256) ∧
  (lbl1Buckets (bucketCountFor d.entries.length) (docLabelPairs d)).flatten
    = docLabelPairs d ∧
  (∀ p ∈ d.entries, p.2.attributes.length = docWidth d) ∧
  docWidth d < 4294967296 ∧
  d.version < 65536 ∧
  (∀ p ∈ d.entries, CanonRuns d.encoding p.2.contents) ∧
  (∀ q ∈ docStylePairs d, q.2 < 4294967296) ∧
  (dLbl1 d).length < 4294967296 ∧
  (dAtr1 d).length < 4294967296 ∧
  (dNli1 d).length < 4294967296 ∧
  4 + 4 * d.entries.length +
    (((docContents d).map (entryStream d.encoding d.byteOrder)).map
      List.length).sum < 4294967296

instance (d : Document) : Decidable (DocCanon d) :=
  inferInstanceAs (Decidable ((d.entries.map Prod.fst).Nodup ∧
    d.entries.length < 4294967296 ∧
    (∀ p ∈ d.entries, p.1.length < 256) ∧
    (lbl1Buckets (bucketCountFor d.entries.length) (docLabelPairs d)).flatten
      = docLabelPairs d ∧
    (∀ p ∈ d.entries, p.2.attributes.length = docWidth d) ∧
    docWidth d < 4294967296 ∧
    d.version < 65536 ∧
    (∀ p ∈ d.entries, CanonRuns d.encoding p.2.contents) ∧
    (∀ q ∈ docStylePairs d, q.2 < 4294967296) ∧
    (dLbl1 d).length < 4294967296 ∧
    (dAtr1 d).length < 4294967296 ∧
    (dNli1 d).length < 4294967296 ∧
    4 + 4 * d.entries.length +
      (((docContents d).map (entryStream d.encoding d.byteOrder)).map
        List.length).sum < 4294967296))

theorem assemble_entries_eq (d : Document) (sty : Nat → Option Nat)
    (hsty : ∀ (j : Nat) (hj : j < d.entries.length),
      sty j = (d.entries.get ⟨j, hj⟩).2.style) :
    ((docLabelPairs d).map (fun p =>
      (p.1, ({ attributes := (docAttrs d).getD p.2 [],
               style := sty p.2,
               contents := (docContents d).getD p.2 [] } : Entry))))
      = d.entries := by
  rw [docLabelPairs, List.map_map]
  apply List.ext_getElem
  · simp [List.enum_length]
  · intro i h1 h2
    rw [List.getElem_map, List.getElem_enum]
    have hA : (docAttrs d).getD i [] = (d.entries.get ⟨i, h2⟩).2.attributes := by
      rw [List.getD_eq_getElem _ _ (by simpa [docAttrs] using h2)]
      simp [docAttrs]
    have hC : (docContents d).getD i [] = (d.entries.get ⟨i, h2⟩).2.contents := by
      rw [List.getD_eq_getElem _ _ (by simpa [docContents] using h2)]
      simp [docContents]
    simp only [Function.comp_apply]
    rw [hA, hC, hsty i h2]
    rfl

theorem msbtDecode_msbtBytesS (d : Document) (s : Slack)
    (hd : DocCanon d) (hs : SlackOk d s) :
    msbtDecode (msbtBytesS d s) = .ok d := by
  obtain ⟨hnodup, hn, hlab, hbuck, hattr, hw, hv, hruns, hstyv, hL, hA, hN, hT⟩ := hd
  obtain ⟨s1, s2, s10, l8, lp, a8, ap, n8, np, t8, tp⟩ := hs
  have hTlen : (dTxt2 d).length < 4294967296 := by
    rw [dTxt2_length]; exact hT
  -- parses of the individual payloads
  have hlblparse : lbl1Parse d.byteOrder (dLbl1 d)
      = some (lbl1Buckets (bucketCountFor d.entries.length) (docLabelPairs d)) := by
    refine lbl1Parse_payload d.byteOrder _ _ (bucketCountFor_lt _ hn)
      (by rw [docLabelPairs_length]; exact hn) ?_ ?_
    · intro p hp
      obtain ⟨-, q, hq, hpq⟩ := mem_docLabelPairs d p hp
      rw [hpq]
      exact hlab q hq
    · intro p hp
      have := (mem_docLabelPairs d p hp).1
      omega
  have hatrparse : atr1Parse d.byteOrder (dAtr1 d)
      = some (docWidth d, docAttrs d) := by
    refine atr1Parse_payload d.byteOrder _ _ ?_ hw (by simpa [docAttrs] using hn)
    intro a ha
    simp only [docAttrs, List.mem_map] at ha
    obtain ⟨q, hq, rfl⟩ := ha
    exact hattr q hq
  have htxtparse : txt2Parse d.encoding d.byteOrder (dTxt2 d)
      = some (docContents d) := by
    refine txt2Parse_payload d.encoding d.byteOrder _ ?_
      (by simpa [docContents] using hn) (by simpa [docContents] using hT)
    intro rs hrs
    simp only [docContents, List.mem_map] at hrs
    obtain ⟨q, hq, rfl⟩ := hrs
    exact hruns q hq
  -- header
  have hheader := headerParse_bytes d.byteOrder d.encoding d.version s.res1
    s.secCount s.res2 s.fileSize s.res10 (msbtBodyS d s) s1 s2 s10 hv
  -- the last section parses alone
  have hsec4 : parseSections d.byteOrder
      (sectionBytesS d.byteOrder txt2Magic (dTxt2 d) s.txtRes8 s.txtPad)
      = some [(txt2Magic, dTxt2 d)] := by
    rw [← List.append_nil
      (sectionBytesS d.byteOrder txt2Magic (dTxt2 d) s.txtRes8 s.txtPad)]
    rw [parseSections_cons d.byteOrder txt2Magic (dTxt2 d) _ _ [] rfl t8 tp hTlen]
    rw [parseSections_nil]
    rfl
  have hblen : (docAttrs d).length
      = ((lbl1Buckets (bucketCountFor d.entries.length) (docLabelPairs d)).flatten).length := by
    rw [hbuck, docLabelPairs_length]
    simp [docAttrs]
  have hnliparse : nli1Parse d.byteOrder (dNli1 d) = some (docStylePairs d) := by
    refine nli1Parse_payload d.byteOrder _ ?_ ?_
    · intro q hq
      refine ⟨?_, hstyv q hq⟩
      have := mem_docStylePairs_fst d q hq
      omega
    · have := docStylePairs_length_le d
      omega
  unfold msbtDecode
  rw [show msbtBytesS d s = headerBytesS d.byteOrder d.encoding d.version s.res1
      s.secCount s.res2 s.fileSize s.res10 ++ msbtBodyS d s from rfl]
  rw [hheader]
  dsimp only
  by_cases hsty : docStylePairs d = []
  · -- three sections, no NLI1
    have hbody : msbtBodyS d s
        = sectionBytesS d.byteOrder lbl1Magic (dLbl1 d) s.lblRes8 s.lblPad ++
          (sectionBytesS d.byteOrder atr1Magic (dAtr1 d) s.atrRes8 s.atrPad ++
          sectionBytesS d.byteOrder txt2Magic (dTxt2 d) s.txtRes8 s.txtPad) := by
      simp [msbtBodyS, hsty]
    have hsecs : parseSections d.byteOrder (msbtBodyS d s)
        = some [(lbl1Magic, dLbl1 d), (atr1Magic, dAtr1 d),
                (txt2Magic, dTxt2 d)] := by
      rw [hbody]
      rw [parseSections_cons d.byteOrder lbl1Magic (dLbl1 d) _ _ _ rfl l8 lp hL]
      rw [parseSections_cons d.byteOrder atr1Magic (dAtr1 d) _ _ _ rfl a8 ap hA]
      rw [hsec4]
      rfl
    rw [hsecs]
    dsimp only
    rw [show ([(lbl1Magic, dLbl1 d), (atr1Magic, dAtr1 d),
        (txt2Magic, dTxt2 d)]).lookup lbl1Magic = some (dLbl1 d) by
      simp [List.lookup]]
    dsimp only
    rw [hlblparse]
    dsimp only
    rw [show ([(lbl1Magic, dLbl1 d), (atr1Magic, dAtr1 d),
        (txt2Magic, dTxt2 d)]).lookup atr1Magic = some (dAtr1 d) by
      simp only [List.lookup]
      rw [show (atr1Magic == lbl1Magic) = false by decide,
        show (atr1Magic == atr1Magic) = true by decide]]
    dsimp only
    rw [hatrparse]
    dsimp only
    rw [if_pos hblen]
    rw [show ([(lbl1Magic, dLbl1 d), (atr1Magic, dAtr1 d),
        (txt2Magic, dTxt2 d)]).lookup txt2Magic = some (dTxt2 d) by
      simp only [List.lookup]
      rw [show (txt2Magic == lbl1Magic) = false by decide,
        show (txt2Magic == atr1Magic) = false by decide,
        show (txt2Magic == txt2Magic) = true by decide]]
    dsimp only
    rw [htxtparse]
    dsimp only
    rw [show ([(lbl1Magic, dLbl1 d), (atr1Magic, dAtr1 d),
        (txt2Magic, dTxt2 d)]).lookup nli1Magic = none by
      simp only [List.lookup]
      rw [show (nli1Magic == lbl1Magic) = false by decide,
        show (nli1Magic == atr1Magic) = false by decide,
        show (nli1Magic == txt2Magic) = false by decide]]
    dsimp only
    rw [hbuck]
    rw [assemble_entries_eq d (fun _ => none)
      (fun j hj => (docStylePairs_nil d hsty j hj).symm)]
  · -- four sections, with NLI1
    have hbody : msbtBodyS d s
        = sectionBytesS d.byteOrder lbl1Magic (dLbl1 d) s.lblRes8 s.lblPad ++
          (sectionBytesS d.byteOrder atr1Magic (dAtr1 d) s.atrRes8 s.atrPad ++
          (sectionBytesS d.byteOrder nli1Magic (dNli1 d) s.nliRes8 s.nliPad ++
          sectionBytesS d.byteOrder txt2Magic (dTxt2 d) s.txtRes8 s.txtPad)) := by
      simp [msbtBodyS, hsty]
    have hsecs : parseSections d.byteOrder (msbtBodyS d s)
        = some [(lbl1Magic, dLbl1 d), (atr1Magic, dAtr1 d),
                (nli1Magic, dNli1 d), (txt2Magic, dTxt2 d)] := by
      rw [hbody]
      rw [parseSections_cons d.byteOrder lbl1Magic (dLbl1 d) _ _ _ rfl l8 lp hL]
      rw [parseSections_cons d.byteOrder atr1Magic (dAtr1 d) _ _ _ rfl a8 ap hA]
      rw [parseSections_cons d.byteOrder nli1Magic (dNli1 d) _ _ _ rfl n8 np hN]
      rw [hsec4]
      rfl
    rw [hsecs]
    dsimp only
    rw [show ([(lbl1Magic, dLbl1 d), (atr1Magic, dAtr1 d), (nli1Magic, dNli1 d),
        (txt2Magic, dTxt2 d)]).lookup lbl1Magic = some (dLbl1 d) by
      simp [List.lookup]]
    dsimp only
    rw [hlblparse]
    dsimp only
    rw [show ([(lbl1Magic, dLbl1 d), (atr1Magic, dAtr1 d), (nli1Magic, dNli1 d),
        (txt2Magic, dTxt2 d)]).lookup atr1Magic = some (dAtr1 d) by
      simp only [List.lookup]
      rw [show (atr1Magic == lbl1Magic) = false by decide,
        show (atr1Magic == atr1Magic) = true by decide]]
    dsimp only
    rw [hatrparse]
    dsimp only
    rw [if_pos hblen]
    rw [show ([(lbl1Magic, dLbl1 d), (atr1Magic, dAtr1 d), (nli1Magic, dNli1 d),
        (txt2Magic, dTxt2 d)]).lookup txt2Magic = some (dTxt2 d) by
      simp only [List.lookup]
      rw [show (txt2Magic == lbl1Magic) = false by decide,
        show (txt2Magic == atr1Magic) = false by decide,
        show (txt2Magic == nli1Magic) = false by decide,
        show (txt2Magic == txt2Magic) = true by decide]]
    dsimp only
    rw [htxtparse]
    dsimp only
    rw [show ([(lbl1Magic, dLbl1 d), (atr1Magic, dAtr1 d), (nli1Magic, dNli1 d),
        (txt2Magic, dTxt2 d)]).lookup nli1Magic = some (dNli1 d) by
      simp only [List.lookup]
      rw [show (nli1Magic == lbl1Magic) = false by decide,
        show (nli1Magic == atr1Magic) = false by decide,
        show (nli1Magic == nli1Magic) = true by decide]]
    dsimp only
    rw [hnliparse]
    dsimp only
    rw [hbuck]
    rw [assemble_entries_eq d (fun j => (docStylePairs d).lookup j)
      (fun j hj => lookup_docStylePairs d j hj)]

/-! ## The `Msbt` Python class (src/src/lib.rs, lines 179–339)

The wrapper stores a decoded document (`msyt: Msyt`) and forwards to the
codec, formatting codec errors into `MsytError` message strings. -/

/-- Modelled from the spec: the Debug rendering of the codec's error kinds
(the `{:?}` part of the wrapper's message strings). -/
def msbtErrorRepr : MsbtError → String
  | .badMagic => "BadMagic"
  | .unexpectedEof => "UnexpectedEof"
  | .malformedAttributeTable => "MalformedAttributeTable"
  | .duplicateLabel => "DuplicateLabel"
  | .invalidControlTag => "InvalidControlTag"
  | .missingRequiredSection => "MissingRequiredSection"

/-- `match big_endian { true => Endianness::Big, false => Endianness::Little }`
(src/src/lib.rs, lines 129–132 and 238–241). -/
def endiannessOf (big_endian : Bool) : Endianness :=
  match big_endian with
  | true => .big
  | false => .little

/-- `Msbt.from_binary` (src/src/lib.rs, lines 216–220): parse MSBT bytes,
wrapping a codec failure into a `MsytError` message. -/
def Msbt.from_binary (data : List Nat) : Except String Document :=
  match msbtDecode data with
  | .ok m => .ok m
  | .error e => .error ("Failed to parse MSBT file: " ++ msbtErrorRepr e)

/-- `Msbt.to_binary` (src/src/lib.rs, lines 230–247): serialize with the
chosen endianness, wrapping a codec failure into a `MsytError` message. -/
def Msbt.to_binary (m : Document) (big_endian : Bool) : Except String (List Nat) :=
  match msbtEncode { m with byteOrder := endiannessOf big_endian } with
  | .ok bs => .ok bs
  | .error e => .error ("Failed to serialize MSBT file: " ++ msbtErrorRepr e)

theorem SlackOk_canonSlack (d : Document) : SlackOk d (canonSlack d) := by
  simp [SlackOk, canonSlack]

theorem msbtEncode_ok (d : Document) (h : (d.entries.map Prod.fst).Nodup) :
    msbtEncode d = .ok (msbtBytesS d (canonSlack d)) := by
  rw [msbtEncode, if_pos h]

/-- C1: decoding an encoded canonical document (non-empty label set,
well-formed per `DocCanon`: bucket-ordered entries, maximal text runs,
field bounds) recovers the document exactly, for both byte orders and both
text encodings (`d.byteOrder` and `d.encoding` are arbitrary); at the
wrapper level `Msbt.from_binary` of `Msbt.to_binary big_endian` reproduces
the document, for both values of `big_endian`, whenever the document's byte
order matches the chosen one. -/
theorem roundtrip_decode_encode (d : Document) (hne : d.entries ≠ [])
    (hd : DocCanon d) :
    msbtEncode d = .ok (msbtBytesS d (canonSlack d)) ∧
    msbtDecode (msbtBytesS d (canonSlack d)) = .ok d ∧
    (∀ be : Bool, d.byteOrder = endiannessOf be →
      Msbt.to_binary d be = .ok (msbtBytesS d (canonSlack d)) ∧
      Msbt.from_binary (msbtBytesS d (canonSlack d)) = .ok d) := by
  have henc := msbtEncode_ok d hd.1
  have hdec := msbtDecode_msbtBytesS d (canonSlack d) hd (SlackOk_canonSlack d)
  refine ⟨henc, hdec, ?_⟩
  intro be hbe
  have hde : ({ d with byteOrder := endiannessOf be } : Document) = d := by
    cases d
    simp only [Document.byteOrder] at hbe
    simp [← hbe]
  constructor
  · rw [Msbt.to_binary, hde, henc]
  · rw [Msbt.from_binary, hdec]

/-- C2: every well-formed binary input — a canonical document's content
bytes together with arbitrary reserved bytes, padding bytes, stored section
count and stored file size (`Slack`, the fields the writer legitimately
re-derives) — decodes to that document, and re-encoding the unmodified
document reproduces the same byte layout with canonical slack: the output
differs from the input only in the slack positions (the text offset table
is recomputed to identical values for an unmodified document). -/
theorem reencode_well_formed (d : Document) (s : Slack) (hd : DocCanon d)
    (hs : SlackOk d s) :
    msbtDecode (msbtBytesS d s) = .ok d ∧
    msbtEncode d = .ok (msbtBytesS d (canonSlack d)) ∧
    SlackOk d (canonSlack d) :=
  ⟨msbtDecode_msbtBytesS d s hd hs, msbtEncode_ok d hd.1, SlackOk_canonSlack d⟩

/-- C3: the hash-bucket placement the encoder computes is a pure function
of label and bucket count — bucket `j` holds exactly the pairs whose label
hashes to `j` modulo the bucket count, in input order — and parsing the
encoded table returns the identical bucket structure, so every label's
bucket matches on a subsequent decode. -/
theorem hash_bucket_placement (e : Endianness) (g : Nat)
    (pairs : List (List Nat × Nat))
    (hg : g < 4294967296) (hcnt : pairs.length < 4294967296)
    (hlen : ∀ p ∈ pairs, p.1.length < 256)
    (hidx : ∀ p ∈ pairs, p.2 < 4294967296) (j : Nat) (hj : j < g) :
    (∀ p, p ∈ (lbl1Buckets g pairs).getD j [] ↔
      p ∈ pairs ∧ labelHash p.1 % g = j) ∧
    lbl1Parse e (lbl1Payload e g pairs) = some (lbl1Buckets g pairs) := by
  constructor
  · intro p
    have hlength : (lbl1Buckets g pairs).length = g := by simp [lbl1Buckets]
    rw [List.getD_eq_getElem _ _ (by rw [hlength]; exact hj)]
    simp only [lbl1Buckets]
    rw [List.getElem_map, List.getElem_range]
    rw [List.mem_filter]
    simp
  · exact lbl1Parse_payload e g pairs hg hcnt hlen hidx

/-- C4: encoding fails with `DuplicateLabel` exactly when the label list
has a repeated label string, and succeeds exactly when the labels are
pairwise distinct — a hash collision between distinct labels never causes
an error, since the check is on label strings only. -/
theorem duplicate_label_iff (d : Document) :
    (msbtEncode d = .error .duplicateLabel ↔ ¬ (d.entries.map Prod.fst).Nodup) ∧
    ((∃ bs, msbtEncode d = .ok bs) ↔ (d.entries.map Prod.fst).Nodup) := by
  by_cases h : (d.entries.map Prod.fst).Nodup
  · rw [msbtEncode, if_pos h]
    constructor
    · constructor
      · intro hcon
        exact absurd hcon (by simp)
      · intro hcon
        exact absurd h hcon
    · exact ⟨fun _ => h, fun _ => ⟨_, rfl⟩⟩
  · rw [msbtEncode, if_neg h]
    constructor
    · exact ⟨fun _ => h, fun _ => rfl⟩
    · constructor
      · intro ⟨bs, hbs⟩
        exact absurd hbs (by simp)
      · intro hcon
        exact absurd hcon h

/-- A concrete canonical two-entry document exercising text runs, a control
tag, attributes and a style id. -/
def wDoc : Document :=
  { byteOrder := .big, encoding := .utf16, version := 3,
    entries := [([65], { attributes := [7], style := some 2,
                         contents := [Run.text [72, 105],
                                      Run.controlTag 0 3 [0, 1],
                                      Run.text [33]] }),
                ([66], { attributes := [9], style := none,
                         contents := [Run.text [66]] })] }

/-- A concrete slack assignment with nonzero reserved/padding bytes and
wrong stored section count and file size. -/
def wSlack : Slack :=
  { res1 := [170], secCount := 9, res2 := [1, 2], fileSize := 12345,
    res10 := List.replicate 10 255,
    lblRes8 := List.replicate 8 3,
    lblPad := List.replicate (padTo16 (dLbl1 wDoc).length) 7,
    atrRes8 := List.replicate 8 4,
    atrPad := List.replicate (padTo16 (dAtr1 wDoc).length) 8,
    nliRes8 := List.replicate 8 5,
    nliPad := List.replicate (padTo16 (dNli1 wDoc).length) 9,
    txtRes8 := List.replicate 8 6,
    txtPad := List.replicate (padTo16 (dTxt2 wDoc).length) 10 }

/-- A document with a non-empty label set but a non-canonical content list
(an empty text run), which serialization erases. -/
def cdocBad : Document :=
  { byteOrder := .little, encoding := .utf8, version := 3,
    entries := [([65], { attributes := [], style := none,
                         contents := [Run.text []] })] }

/-- `cdocBad` after one encode/decode round trip: the empty text run is
gone. -/
def cdocFix : Document :=
  { byteOrder := .little, encoding := .utf8, version := 3,
    entries := [([65], { attributes := [], style := none, contents := [] })] }

theorem roundtrip_decode_encode_witness :
    wDoc.entries ≠ [] ∧ DocCanon wDoc ∧
    (msbtEncode wDoc = .ok (msbtBytesS wDoc (canonSlack wDoc)) ∧
     msbtDecode (msbtBytesS wDoc (canonSlack wDoc)) = .ok wDoc ∧
     (∀ be : Bool, wDoc.byteOrder = endiannessOf be →
       Msbt.to_binary wDoc be = .ok (msbtBytesS wDoc (canonSlack wDoc)) ∧
       Msbt.from_binary (msbtBytesS wDoc (canonSlack wDoc)) = .ok wDoc)) :=
  ⟨by decide, by decide, roundtrip_decode_encode wDoc (by decide) (by decide)⟩

/-- The round-trip claim is false without canonicity of the content runs:
`cdocBad` has a non-empty label set, encodes successfully, but decodes to a
different document (its empty text run is not reproduced). -/
theorem roundtrip_decode_encode_cex :
    msbtEncode cdocBad = .ok (msbtBytesS cdocBad (canonSlack cdocBad)) ∧
    msbtDecode (msbtBytesS cdocBad (canonSlack cdocBad)) = .ok cdocFix ∧
    cdocFix ≠ cdocBad := by
  refine ⟨msbtEncode_ok cdocBad (by decide), ?_, by decide⟩
  have hbytes : msbtBytesS cdocBad (canonSlack cdocBad)
      = msbtBytesS cdocFix (canonSlack cdocFix) := by decide
  rw [hbytes]
  exact msbtDecode_msbtBytesS cdocFix (canonSlack cdocFix) (by decide)
    (SlackOk_canonSlack cdocFix)

theorem reencode_well_formed_witness :
    DocCanon wDoc ∧ SlackOk wDoc wSlack ∧
    (msbtDecode (msbtBytesS wDoc wSlack) = .ok wDoc ∧
     msbtEncode wDoc = .ok (msbtBytesS wDoc (canonSlack wDoc)) ∧
     SlackOk wDoc (canonSlack wDoc)) :=
  ⟨by decide, by decide, reencode_well_formed wDoc wSlack (by decide) (by decide)⟩

theorem hash_bucket_placement_witness :
    (∀ p, p ∈ (lbl1Buckets 101 [([65], 0), ([66, 67], 1)]).getD 65 [] ↔
      p ∈ [([65], 0), ([66, 67], 1)] ∧ labelHash p.1 % 101 = 65) ∧
    lbl1Parse .little (lbl1Payload .little 101 [([65], 0), ([66, 67], 1)])
      = some (lbl1Buckets 101 [([65], 0), ([66, 67], 1)]) :=
  hash_bucket_placement .little 101 [([65], 0), ([66, 67], 1)] (by decide)
    (by decide) (by decide) (by decide) 65 (by decide)

/-! ## Conversion pipeline (src/src/lib.rs, `export` lines 34–96 and
`create` lines 107–177)

Paths are component lists; the filesystem is an abstract store of binary
files, text files and directories; performed effects (directory creation,
file writes) are collected as an operation trace.  The YAML/JSON
serializers are external collaborators and enter as parameters.  Rayon's
`par_iter().try_for_each` over the collected path list is modelled
sequentially: the batch stops at the first error in iteration order. -/

/-- A filesystem path, as its components. -/
abbrev Path := List String

/-- Split a file name's characters at the dots. -/
def splitDotsChars : List Char → List (List Char)
  | [] => [[]]
  | c :: cs =>
    let r := splitDotsChars cs
    if c = '.' then [] :: r
    else
      match r with
      | [] => [[c]]
      | h :: t => (c :: h) :: t

/-- Replace the extension after the final dot of a file name
(`PathBuf::with_extension` on the final component). -/
def setExt (s e : String) : String :=
  match splitDotsChars s.data with
  | [] => s ++ "." ++ e
  | [x] => String.mk x ++ "." ++ e
  | xs => String.intercalate "." ((xs.dropLast).map String.mk) ++ "." ++ e

/-- The extension of a file name: the part after the final dot, empty when
there is no dot. -/
def extOf (s : String) : String :=
  match splitDotsChars s.data with
  | [] => ""
  | [_] => ""
  | xs => String.mk (xs.getLastD [])

/-- `with_extension` on a path: rewrite the final component's extension. -/
def withExtension (p : Path) (e : String) : Path :=
  match p with
  | [] => []
  | _ => p.dropLast ++ [setExt (p.getLastD "") e]

/-- Display form of a path (`to_string_lossy`). -/
def pathString (p : Path) : String := String.intercalate "/" p

/-- Contents of a file: MSBT bytes or YAML/JSON text. -/
inductive FileData where
  | binary (bytes : List Nat)
  | textual (text : String)
deriving DecidableEq, Repr

/-- An effect the pipeline performs on the filesystem. -/
inductive FsOp where
  | createDirAll (p : Path)
  | writeFile (p : Path) (data : FileData)
deriving DecidableEq, Repr

/-- The filesystem the pipeline reads: binary files, text files,
directories. -/
structure FS where
  binFiles : List (Path × List Nat)
  textFiles : List (Path × String)
  dirs : List Path
deriving Repr

/-- `Path::is_file`. -/
def FS.isFile (fs : FS) (p : Path) : Bool :=
  (fs.binFiles.lookup p).isSome || (fs.textFiles.lookup p).isSome

/-- `Path::is_dir`. -/
def FS.isDir (fs : FS) (p : Path) : Bool := fs.dirs.contains p

/-- The external YAML/JSON structured-text collaborators (serde), at their
interface boundary. -/
structure Serializers where
  toYaml : Document → String
  toJson : Document → String
  fromYaml : String → Except String Document
  fromJson : String → Except String Document

/-- `export_single` (src/src/lib.rs, lines 37–55): read and decode one MSBT
file, create the output's parent directory, and write the YAML or JSON
serialization.  Failure messages carry the codec-level cause. -/
def export_single (fs : FS) (ser : Serializers) (input output : Path)
    (json : Bool) : Except String (List FsOp) :=
  match fs.binFiles.lookup input with
  | none => .error ("Could not read MSBT file: " ++ "Io(NotFound)")
  | some bytes =>
    match msbtDecode bytes with
    | .error e => .error ("Could not read MSBT file: " ++ msbtErrorRepr e)
    | .ok msyt =>
      .ok [FsOp.createDirAll output.dropLast,
           FsOp.writeFile output (.textual
             (match json with
              | true => ser.toJson msyt
              | false => ser.toYaml msyt))]

/-- Whether `f` matches `root/**/*.<ext>`: strictly under the root, with
the matching extension. -/
def matchesExt (root : Path) (ext : String) (f : Path) : Bool :=
  root.isPrefixOf f && decide (root.length < f.length)
    && (extOf (f.getLastD "") == ext)

/-- `glob(root/**/*.<ext>)`: every file of the store matching the pattern,
at any depth. -/
def globFiles (fs : FS) (root : Path) (ext : String) : List Path :=
  ((fs.binFiles.map Prod.fst) ++ (fs.textFiles.map Prod.fst)).filter
    (matchesExt root ext)

/-- `par_iter().try_for_each` over the path list, modelled sequentially:
collect each file's effects, stop at the first error; effects of files
already converted are kept (no rollback). -/
def runBatch (conv : Path → Except String (List FsOp)) :
    List Path → List FsOp × Option String
  | [] => ([], none)
  | p :: t =>
    match conv p with
    | .ok ops =>
      let r := runBatch conv t
      (ops ++ r.1, r.2)
    | .error msg => ([], some msg)

/-- The output path of one discovered file: the file's path relative to the
input root joined onto the output root, with the extension replaced. -/
def convTarget (input out f : Path) (ext : String) : Path :=
  withExtension (out ++ f.drop input.length) ext

/-- `export` (src/src/lib.rs, lines 36–96): batch-convert a directory of
MSBT files, convert a single file, or fail with the invalid-input-path
message.  Returns the performed effects and the error, if any. -/
def exportFun (fs : FS) (ser : Serializers) (input : Path)
    (output : Option Path) (json : Option Bool) : List FsOp × Option String :=
  if fs.isDir input then
    let out := output.getD input
    let r := runBatch
      (fun f => export_single fs ser f (convTarget input out f "msyt")
        (json.getD false))
      (globFiles fs input "msbt")
    (FsOp.createDirAll out :: r.1,
     r.2.map (fun m => "Failed to create MSYT files: " ++ m))
  else if fs.isFile input then
    let out := output.getD (withExtension input "msyt")
    match export_single fs ser input out (json.getD false) with
    | .ok ops => (ops, none)
    | .error m => ([], some m)
  else
    ([], some (pathString input ++ " is not a valid file or folder"))

/-- The encode-and-write tail of `create_single`: serialize with the chosen
endianness, after creating the parent directory. -/
def createFinish (m : Document) (output : Path) (big_endian : Bool) :
    Except String (List FsOp) :=
  match msbtEncode { m with byteOrder := endiannessOf big_endian } with
  | .error e => .error ("Could not write MSBT file: " ++ msbtErrorRepr e)
  | .ok bytes =>
    .ok [FsOp.createDirAll output.dropLast,
         FsOp.writeFile output (.binary bytes)]

/-- `create_single` (src/src/lib.rs, lines 110–136): read one text file,
try to parse it as YAML and only on failure as JSON (reporting the JSON
error when both fail), then encode and write the MSBT file. -/
def create_single (fs : FS) (ser : Serializers) (input output : Path)
    (big_endian : Bool) : Except String (List FsOp) :=
  match fs.textFiles.lookup input with
  | none => .error "Io(NotFound)"
  | some text =>
    match ser.fromYaml text with
    | .ok m => createFinish m output big_endian
    | .error _ =>
      match ser.fromJson text with
      | .ok m => createFinish m output big_endian
      | .error e =>
        .error ("Could not parse text as valid MSYT YAML or JSON: " ++ e)

/-- `create` (src/src/lib.rs, lines 109–177): batch-convert a directory of
MSYT text files, convert a single file, or fail with the invalid-input-path
message. -/
def createFun (fs : FS) (ser : Serializers) (input : Path) (big_endian : Bool)
    (output : Option Path) : List FsOp × Option String :=
  if fs.isDir input then
    let out := output.getD input
    let r := runBatch
      (fun f => create_single fs ser f (convTarget input out f "msbt")
        big_endian)
      (globFiles fs input "msyt")
    (FsOp.createDirAll out :: r.1,
     r.2.map (fun m => "Failed to create MSBT files: " ++ m))
  else if fs.isFile input then
    let out := output.getD (withExtension input "msbt")
    match create_single fs ser input out big_endian with
    | .ok ops => (ops, none)
    | .error m => ([], some m)
  else
    ([], some (pathString input ++ " is not a valid file or folder"))

/-- Whether `needle` occurs as a substring of `hay`. -/
def containsSub (hay needle : String) : Bool :=
  (List.range (hay.length + 1)).any
    (fun i => needle.data.isPrefixOf (hay.data.drop i))

theorem export_single_ok (fs : FS) (ser : Serializers) (input output : Path)
    (json : Bool) (bytes : List Nat) (doc : Document)
    (hlook : fs.binFiles.lookup input = some bytes)
    (hdec : msbtDecode bytes = .ok doc) :
    export_single fs ser input output json
      = .ok [FsOp.createDirAll output.dropLast,
             FsOp.writeFile output (.textual
               (match json with
                | true => ser.toJson doc
                | false => ser.toYaml doc))] := by
  unfold export_single
  rw [hlook]
  dsimp only
  rw [hdec]

theorem export_single_err (fs : FS) (ser : Serializers) (input output : Path)
    (json : Bool) (bytes : List Nat) (e : MsbtError)
    (hlook : fs.binFiles.lookup input = some bytes)
    (hdec : msbtDecode bytes = .error e) :
    export_single fs ser input output json
      = .error ("Could not read MSBT file: " ++ msbtErrorRepr e) := by
  unfold export_single
  rw [hlook]
  dsimp only
  rw [hdec]

theorem exportFun_invalid (fs : FS) (ser : Serializers) (input : Path)
    (output : Option Path) (json : Option Bool)
    (hf : fs.isFile input = false) (hd : fs.isDir input = false) :
    exportFun fs ser input output json
      = ([], some (pathString input ++ " is not a valid file or folder")) := by
  unfold exportFun
  rw [hf, hd]
  simp

theorem createFun_invalid (fs : FS) (ser : Serializers) (input : Path)
    (be : Bool) (output : Option Path)
    (hf : fs.isFile input = false) (hd : fs.isDir input = false) :
    createFun fs ser input be output
      = ([], some (pathString input ++ " is not a valid file or folder")) := by
  unfold createFun
  rw [hf, hd]
  simp

theorem runBatch_spec (conv : Path → Except String (List FsOp)) :
    ∀ (l : List Path) (k : Nat) (msg : String) (opsF : Nat → List FsOp),
      k < l.length →
      (∀ i, i < k → ∀ f, l[i]? = some f → conv f = .ok (opsF i)) →
      (∀ f, l[k]? = some f → conv f = .error msg) →
      (runBatch conv l).2 = some msg ∧
      (∀ i, i < k → ∀ op ∈ opsF i, op ∈ (runBatch conv l).1) := by
  intro l
  induction l with
  | nil =>
    intro k msg opsF hk
    exact absurd hk (by simp)
  | cons p t ih =>
    intro k msg opsF hk hok hfail
    cases k with
    | zero =>
      have hp : conv p = .error msg := hfail p (by simp)
      constructor
      · show (runBatch conv (p :: t)).2 = some msg
        simp only [runBatch]
        rw [hp]
      · intro i hi
        exact absurd hi (by omega)
    | succ k' =>
      have h0 : conv p = .ok (opsF 0) := hok 0 (by omega) p (by simp)
      have hkk : k' < t.length := by
        simp only [List.length_cons] at hk
        omega
      have hok' : ∀ i, i < k' → ∀ f, t[i]? = some f
          → conv f = .ok (opsF (i + 1)) :=
        fun i hi f hf => hok (i + 1) (by omega) f (by simpa using hf)
      have hfail' : ∀ f, t[k']? = some f → conv f = .error msg :=
        fun f hf => hfail f (by simpa using hf)
      obtain ⟨h1, h2⟩ := ih k' msg (fun i => opsF (i + 1)) hkk hok' hfail'
      constructor
      · simp only [runBatch]
        rw [h0]
        exact h1
      · intro i hi op hop
        simp only [runBatch]
        rw [h0]
        dsimp only
        cases i with
        | zero => exact List.mem_append_left _ hop
        | succ j => exact List.mem_append_right _ (h2 j (by omega) op hop)

/-- C5: a single-file convert operation — `export` or `create` — on an
input path that is neither an existing file nor a directory fails with the
invalid-input-path error, performing no conversion and writing nothing. -/
theorem invalid_input_path (fs : FS) (ser : Serializers) (input : Path)
    (output : Option Path) (json : Option Bool) (be : Bool)
    (hf : fs.isFile input = false) (hd : fs.isDir input = false) :
    exportFun fs ser input output json
      = ([], some (pathString input ++ " is not a valid file or folder")) ∧
    createFun fs ser input be output
      = ([], some (pathString input ++ " is not a valid file or folder")) :=
  ⟨exportFun_invalid fs ser input output json hf hd,
   createFun_invalid fs ser input be output hf hd⟩

/-- A trivial serializer pair standing in for serde at the interface
boundary. -/
def serC : Serializers :=
  { toYaml := fun _ => "", toJson := fun _ => "",
    fromYaml := fun _ => .error "", fromJson := fun _ => .error "" }

/-- An empty filesystem. -/
def fsEmpty : FS := { binFiles := [], textFiles := [], dirs := [] }

theorem invalid_input_path_witness :
    FS.isFile fsEmpty ["nope"] = false ∧ FS.isDir fsEmpty ["nope"] = false ∧
    (exportFun fsEmpty serC ["nope"] none none
      = ([], some (pathString ["nope"] ++ " is not a valid file or folder")) ∧
     createFun fsEmpty serC ["nope"] true none
      = ([], some (pathString ["nope"] ++ " is not a valid file or folder"))) :=
  ⟨by decide, by decide,
   invalid_input_path fsEmpty serC ["nope"] none none true (by decide) (by decide)⟩

/-- A filesystem holding a single unparsable (empty) MSBT file. -/
def fsC : FS := { binFiles := [(["a.msbt"], [])], textFiles := [], dirs := [] }

/-- C6 counterexample: a single-file export failure's message carries only
the codec-level cause; the offending file's path (`a.msbt`) does not occur
in it. -/
theorem error_message_no_path_cex :
    (exportFun fsC serC ["a.msbt"] none none).2
      = some ("Could not read MSBT file: " ++ msbtErrorRepr .badMagic) ∧
    containsSub ("Could not read MSBT file: " ++ msbtErrorRepr .badMagic)
      "a.msbt" = false := by
  constructor
  · have hlook : fsC.binFiles.lookup ["a.msbt"] = some [] := by decide
    have hdec : msbtDecode [] = .error .badMagic := by decide
    have hsing := export_single_err fsC serC ["a.msbt"]
      (withExtension ["a.msbt"] "msyt") false [] .badMagic hlook hdec
    unfold exportFun
    rw [show fsC.isDir ["a.msbt"] = false by decide,
      show fsC.isFile ["a.msbt"] = true by decide]
    simp only [Bool.false_eq_true, if_false, if_true, Option.getD_none]
    rw [hsing]
  · decide

/-- C6 corrected: per-file conversion failure messages — on the export side
(decode failure) and on the create side (read failure, parse failure of both
text formats, encode failure) — are built from the codec- or parse-level
cause alone and do not include the offending file's path; only the
invalid-input-path failures, of export and of create, name the path. -/
theorem error_message_content (fs : FS) (ser : Serializers) (input output : Path)
    (json : Bool) (bytes : List Nat) (e : MsbtError)
    (hlook : fs.binFiles.lookup input = some bytes)
    (hdec : msbtDecode bytes = .error e) :
    export_single fs ser input output json
      = .error ("Could not read MSBT file: " ++ msbtErrorRepr e) ∧
    (∀ (fs2 : FS) (input2 output2 : Path) (be : Bool),
      fs2.textFiles.lookup input2 = none →
      create_single fs2 ser input2 output2 be = .error "Io(NotFound)") ∧
    (∀ (fs2 : FS) (input2 output2 : Path) (be : Bool) (text ey ej : String),
      fs2.textFiles.lookup input2 = some text →
      ser.fromYaml text = .error ey → ser.fromJson text = .error ej →
      create_single fs2 ser input2 output2 be
        = .error ("Could not parse text as valid MSYT YAML or JSON: " ++ ej)) ∧
    (∀ (fs2 : FS) (input2 output2 : Path) (be : Bool) (text : String)
        (m : Document) (e2 : MsbtError),
      fs2.textFiles.lookup input2 = some text →
      ser.fromYaml text = .ok m →
      msbtEncode { m with byteOrder := endiannessOf be } = .error e2 →
      create_single fs2 ser input2 output2 be
        = .error ("Could not write MSBT file: " ++ msbtErrorRepr e2)) ∧
    (∀ (fs2 : FS) (input2 : Path), FS.isFile fs2 input2 = false →
      FS.isDir fs2 input2 = false →
      (exportFun fs2 ser input2 none none).2
        = some (pathString input2 ++ " is not a valid file or folder") ∧
      (∀ be : Bool, (createFun fs2 ser input2 be none).2
        = some (pathString input2 ++ " is not a valid file or folder"))) := by
  refine ⟨export_single_err fs ser input output json bytes e hlook hdec,
    ?_, ?_, ?_, ?_⟩
  · intro fs2 input2 output2 be hnone
    unfold create_single
    rw [hnone]
  · intro fs2 input2 output2 be text ey ej hlook2 hy hj
    unfold create_single
    rw [hlook2]
    dsimp only
    rw [hy]
    dsimp only
    rw [hj]
  · intro fs2 input2 output2 be text m e2 hlook2 hy henc
    unfold create_single
    rw [hlook2]
    dsimp only
    rw [hy]
    dsimp only
    unfold createFinish
    rw [henc]
  · intro fs2 input2 hf hd
    constructor
    · rw [exportFun_invalid fs2 ser input2 none none hf hd]
    · intro be
      rw [createFun_invalid fs2 ser input2 be none hf hd]

theorem error_message_content_witness :
    fsC.binFiles.lookup ["a.msbt"] = some [] ∧
    msbtDecode [] = .error .badMagic ∧
    (export_single fsC serC ["a.msbt"] ["a.msyt"] false
      = .error ("Could not read MSBT file: " ++ msbtErrorRepr .badMagic) ∧
    (∀ (fs2 : FS) (input2 output2 : Path) (be : Bool),
      fs2.textFiles.lookup input2 = none →
      create_single fs2 serC input2 output2 be = .error "Io(NotFound)") ∧
    (∀ (fs2 : FS) (input2 output2 : Path) (be : Bool) (text ey ej : String),
      fs2.textFiles.lookup input2 = some text →
      serC.fromYaml text = .error ey → serC.fromJson text = .error ej →
      create_single fs2 serC input2 output2 be
        = .error ("Could not parse text as valid MSYT YAML or JSON: " ++ ej)) ∧
    (∀ (fs2 : FS) (input2 output2 : Path) (be : Bool) (text : String)
        (m : Document) (e2 : MsbtError),
      fs2.textFiles.lookup input2 = some text →
      serC.fromYaml text = .ok m →
      msbtEncode { m with byteOrder := endiannessOf be } = .error e2 →
      create_single fs2 serC input2 output2 be
        = .error ("Could not write MSBT file: " ++ msbtErrorRepr e2)) ∧
    (∀ (fs2 : FS) (input2 : Path), FS.isFile fs2 input2 = false →
      FS.isDir fs2 input2 = false →
      (exportFun fs2 serC input2 none none).2
        = some (pathString input2 ++ " is not a valid file or folder") ∧
      (∀ be : Bool, (createFun fs2 serC input2 be none).2
        = some (pathString input2 ++ " is not a valid file or folder")))) :=
  ⟨by decide, by decide,
   error_message_content fsC serC ["a.msbt"] ["a.msyt"] false [] .badMagic
     (by decide) (by decide)⟩

/-- The canonical encoded bytes of `wDoc`. -/
def wBytes : List Nat := msbtBytesS wDoc (canonSlack wDoc)

theorem msbtDecode_wBytes : msbtDecode wBytes = .ok wDoc :=
  msbtDecode_msbtBytesS wDoc (canonSlack wDoc) (by decide) (SlackOk_canonSlack wDoc)

theorem create_single_yaml_ok (fs : FS) (ser : Serializers) (input output : Path)
    (be : Bool) (text : String) (m : Document)
    (hlook : fs.textFiles.lookup input = some text)
    (hy : ser.fromYaml text = .ok m) :
    create_single fs ser input output be = createFinish m output be := by
  unfold create_single
  rw [hlook]
  dsimp only
  rw [hy]

theorem create_single_both_err (fs : FS) (ser : Serializers) (input output : Path)
    (be : Bool) (text : String) (ey ej : String)
    (hlook : fs.textFiles.lookup input = some text)
    (hy : ser.fromYaml text = .error ey) (hj : ser.fromJson text = .error ej) :
    create_single fs ser input output be
      = .error ("Could not parse text as valid MSYT YAML or JSON: " ++ ej) := by
  unfold create_single
  rw [hlook]
  dsimp only
  rw [hy]
  dsimp only
  rw [hj]

theorem createFinish_ok (m : Document) (output : Path) (be : Bool)
    (h : ((({ m with byteOrder := endiannessOf be } : Document)).entries.map
      Prod.fst).Nodup) :
    createFinish m output be
      = .ok [FsOp.createDirAll output.dropLast,
             FsOp.writeFile output (.binary
               (msbtBytesS { m with byteOrder := endiannessOf be }
                 (canonSlack { m with byteOrder := endiannessOf be })))] := by
  unfold createFinish
  rw [msbtEncode_ok _ h]

/-- C7: batch conversion is per-file independent and not transactional: in
the sequential model of `par_iter().try_for_each` the batch result is the
first per-file error in iteration order (wrapped in the batch message), and
every effect of a file converted before the failure is still in the
performed-effect trace (no rollback) — for both the export and the create
direction. -/
theorem batch_first_error
    (fs : FS) (ser : Serializers) (inputE inputC : Path)
    (outE outC : Option Path) (json : Option Bool) (be : Bool)
    (kE kC : Nat) (msgE msgC : String) (opsE opsC : Nat → List FsOp)
    (hdirE : fs.isDir inputE = true)
    (hkE : kE < (globFiles fs inputE "msbt").length)
    (hokE : ∀ i, i < kE → ∀ f, (globFiles fs inputE "msbt")[i]? = some f →
      export_single fs ser f
        (convTarget inputE (outE.getD inputE) f "msyt")
        (json.getD false) = .ok (opsE i))
    (hfailE : ∀ f, (globFiles fs inputE "msbt")[kE]? = some f →
      export_single fs ser f
        (convTarget inputE (outE.getD inputE) f "msyt")
        (json.getD false) = .error msgE)
    (hdirC : fs.isDir inputC = true)
    (hkC : kC < (globFiles fs inputC "msyt").length)
    (hokC : ∀ i, i < kC → ∀ f, (globFiles fs inputC "msyt")[i]? = some f →
      create_single fs ser f
        (convTarget inputC (outC.getD inputC) f "msbt")
        be = .ok (opsC i))
    (hfailC : ∀ f, (globFiles fs inputC "msyt")[kC]? = some f →
      create_single fs ser f
        (convTarget inputC (outC.getD inputC) f "msbt")
        be = .error msgC) :
    ((exportFun fs ser inputE outE json).2
        = some ("Failed to create MSYT files: " ++ msgE) ∧
     ∀ i, i < kE → ∀ op ∈ opsE i,
        op ∈ (exportFun fs ser inputE outE json).1) ∧
    ((createFun fs ser inputC be outC).2
        = some ("Failed to create MSBT files: " ++ msgC) ∧
     ∀ i, i < kC → ∀ op ∈ opsC i,
        op ∈ (createFun fs ser inputC be outC).1) := by
  constructor
  · obtain ⟨h1, h2⟩ := runBatch_spec
      (fun f => export_single fs ser f
        (convTarget inputE (outE.getD inputE) f "msyt") (json.getD false))
      (globFiles fs inputE "msbt") kE msgE opsE hkE hokE hfailE
    unfold exportFun
    rw [hdirE]
    constructor
    · rw [if_pos rfl]
      dsimp only
      rw [h1]
      rfl
    · intro i hi op hop
      rw [if_pos rfl]
      dsimp only
      exact List.mem_cons_of_mem _ (h2 i hi op hop)
  · obtain ⟨h1, h2⟩ := runBatch_spec
      (fun f => create_single fs ser f
        (convTarget inputC (outC.getD inputC) f "msbt") be)
      (globFiles fs inputC "msyt") kC msgC opsC hkC hokC hfailC
    unfold createFun
    rw [hdirC]
    constructor
    · rw [if_pos rfl]
      dsimp only
      rw [h1]
      rfl
    · intro i hi op hop
      rw [if_pos rfl]
      dsimp only
      exact List.mem_cons_of_mem _ (h2 i hi op hop)

/-- A directory of three MSBT files of which exactly the last is
malformed. -/
def fs3 : FS :=
  { binFiles := [(["in", "a.msbt"], wBytes), (["in", "b.msbt"], wBytes),
                 (["in", "z.msbt"], [])],
    textFiles := [], dirs := [["in"], ["out"]] }

theorem exportFun_fs3 :
    exportFun fs3 serC ["in"] (some ["out"]) none
      = (FsOp.createDirAll ["out"] ::
          ([FsOp.createDirAll ["out"],
            FsOp.writeFile ["out", "a.msyt"] (.textual "")] ++
           ([FsOp.createDirAll ["out"],
             FsOp.writeFile ["out", "b.msyt"] (.textual "")] ++ [])),
         some "Failed to create MSYT files: Could not read MSBT file: BadMagic") := by
  have hglob : globFiles fs3 ["in"] "msbt"
      = [["in", "a.msbt"], ["in", "b.msbt"], ["in", "z.msbt"]] := by decide
  have htgtA : convTarget ["in"] ["out"] ["in", "a.msbt"] "msyt"
      = ["out", "a.msyt"] := by decide
  have htgtB : convTarget ["in"] ["out"] ["in", "b.msbt"] "msyt"
      = ["out", "b.msyt"] := by decide
  have hA := export_single_ok fs3 serC ["in", "a.msbt"] ["out", "a.msyt"]
    false wBytes wDoc rfl msbtDecode_wBytes
  have hB := export_single_ok fs3 serC ["in", "b.msbt"] ["out", "b.msyt"]
    false wBytes wDoc rfl msbtDecode_wBytes
  have hZ := export_single_err fs3 serC ["in", "z.msbt"] ["out", "z.msyt"]
    false [] .badMagic rfl (by decide)
  unfold exportFun
  rw [show fs3.isDir ["in"] = true by decide]
  rw [if_pos rfl]
  dsimp only
  simp only [Option.getD_some, Option.getD_none]
  rw [hglob]
  simp only [runBatch]
  rw [htgtA, hA]
  dsimp only
  rw [htgtB, hB]
  dsimp only
  rw [show convTarget ["in"] ["out"] ["in", "z.msbt"] "msyt"
      = ["out", "z.msyt"] by decide, hZ]
  rfl

/-- C7 counterexample: in the three-file scenario the batch reports exactly
one failure and both other outputs were written, but the failure message
does not name the malformed file (`z.msbt`) — it carries only the
codec-level cause. -/
theorem batch_first_error_cex :
    (exportFun fs3 serC ["in"] (some ["out"]) none).2
      = some "Failed to create MSYT files: Could not read MSBT file: BadMagic" ∧
    containsSub "Failed to create MSYT files: Could not read MSBT file: BadMagic"
      "z.msbt" = false ∧
    FsOp.writeFile ["out", "a.msyt"] (.textual "")
      ∈ (exportFun fs3 serC ["in"] (some ["out"]) none).1 ∧
    FsOp.writeFile ["out", "b.msyt"] (.textual "")
      ∈ (exportFun fs3 serC ["in"] (some ["out"]) none).1 := by
  rw [exportFun_fs3]
  refine ⟨rfl, by decide, ?_, ?_⟩ <;> decide

/-- A filesystem with an MSBT batch directory (`ie`: one valid, one
malformed file) and an MSYT batch directory (`ic`: one parsable, one
unparsable file). -/
def fsW : FS :=
  { binFiles := [(["ie", "a.msbt"], wBytes), (["ie", "z.msbt"], [])],
    textFiles := [(["ic", "g.msyt"], "good"), (["ic", "z.msyt"], "bad")],
    dirs := [["ie"], ["ic"]] }

/-- A serializer pair whose YAML reader accepts exactly the text `good`. -/
def serW : Serializers :=
  { toYaml := fun _ => "Y", toJson := fun _ => "J",
    fromYaml := fun s => if s = "good" then .ok wDoc else .error "yerr",
    fromJson := fun _ => .error "jerr" }

theorem batch_first_error_witness :
    ((exportFun fsW serW ["ie"] none none).2
        = some ("Failed to create MSYT files: "
            ++ "Could not read MSBT file: BadMagic") ∧
     ∀ i (hi : i < 1),
       ∀ op ∈ (fun _ : Nat => [FsOp.createDirAll ["ie"],
         FsOp.writeFile ["ie", "a.msyt"] (.textual "Y")]) i,
         op ∈ (exportFun fsW serW ["ie"] none none).1) ∧
    ((createFun fsW serW ["ic"] true none).2
        = some ("Failed to create MSBT files: "
            ++ "Could not parse text as valid MSYT YAML or JSON: jerr") ∧
     ∀ i (hi : i < 1),
       ∀ op ∈ (fun _ : Nat => [FsOp.createDirAll ["ic"],
         FsOp.writeFile ["ic", "g.msbt"] (.binary wBytes)]) i,
         op ∈ (createFun fsW serW ["ic"] true none).1) := by
  have hglobE : globFiles fsW ["ie"] "msbt"
      = [["ie", "a.msbt"], ["ie", "z.msbt"]] := by decide
  have hglobC : globFiles fsW ["ic"] "msyt"
      = [["ic", "g.msyt"], ["ic", "z.msyt"]] := by decide
  refine batch_first_error fsW serW ["ie"] ["ic"] none none none true 1 1
    "Could not read MSBT file: BadMagic"
    "Could not parse text as valid MSYT YAML or JSON: jerr"
    _ _ (by decide) (by rw [hglobE]; simp) ?_ ?_ (by decide)
    (by rw [hglobC]; simp) ?_ ?_
  · intro i hi f hf
    interval_cases i
    rw [hglobE] at hf
    simp only [List.getElem?_cons_zero, Option.some.injEq] at hf
    subst hf
    rw [show convTarget ["ie"] ((none : Option Path).getD ["ie"]) ["ie", "a.msbt"]
        "msyt" = ["ie", "a.msyt"] by decide]
    rw [export_single_ok fsW serW ["ie", "a.msbt"] ["ie", "a.msyt"]
      ((none : Option Bool).getD false) wBytes wDoc rfl msbtDecode_wBytes]
    decide
  · intro f hf
    rw [hglobE] at hf
    simp only [List.getElem?_cons_succ, List.getElem?_cons_zero,
      Option.some.injEq] at hf
    subst hf
    rw [show convTarget ["ie"] ((none : Option Path).getD ["ie"]) ["ie", "z.msbt"]
        "msyt" = ["ie", "z.msyt"] by decide]
    rw [export_single_err fsW serW ["ie", "z.msbt"] ["ie", "z.msyt"]
      ((none : Option Bool).getD false) [] .badMagic rfl (by decide)]
    decide
  · intro i hi f hf
    interval_cases i
    rw [hglobC] at hf
    simp only [List.getElem?_cons_zero, Option.some.injEq] at hf
    subst hf
    rw [show convTarget ["ic"] ((none : Option Path).getD ["ic"]) ["ic", "g.msyt"]
        "msbt" = ["ic", "g.msbt"] by decide]
    rw [create_single_yaml_ok fsW serW ["ic", "g.msyt"] ["ic", "g.msbt"] true
      "good" wDoc rfl (by decide)]
    rw [createFinish_ok wDoc ["ic", "g.msbt"] true (by decide)]
    decide
  · intro f hf
    rw [hglobC] at hf
    simp only [List.getElem?_cons_succ, List.getElem?_cons_zero,
      Option.some.injEq] at hf
    subst hf
    rw [show convTarget ["ic"] ((none : Option Path).getD ["ic"]) ["ic", "z.msyt"]
        "msbt" = ["ic", "z.msbt"] by decide]
    rw [create_single_both_err fsW serW ["ic", "z.msyt"] ["ic", "z.msbt"] true
      "bad" "yerr" "jerr" rfl (by decide) (by decide)]
    decide

/-- C8: with a directory input the pipeline discovers exactly the files
with the matching extension strictly under the root, at any depth; each
discovered file's output path is its root-relative path joined onto the
output root with the extension replaced (msbt→msyt on export, msyt→msbt on
create); and a successful single-file conversion creates the target's
missing parent directories before writing the target. -/
theorem batch_discovery_and_targets (fs : FS) (ser : Serializers)
    (input out f : Path) (json be : Bool) (ext : String) :
    (f ∈ globFiles fs input ext ↔
      (f ∈ fs.binFiles.map Prod.fst ∨ f ∈ fs.textFiles.map Prod.fst) ∧
      input.isPrefixOf f = true ∧ input.length < f.length ∧
      extOf (f.getLastD "") = ext) ∧
    convTarget input out f "msyt"
      = withExtension (out ++ f.drop input.length) "msyt" ∧
    convTarget input out f "msbt"
      = withExtension (out ++ f.drop input.length) "msbt" ∧
    (∀ bytes doc, fs.binFiles.lookup f = some bytes →
      msbtDecode bytes = .ok doc →
      export_single fs ser f (convTarget input out f "msyt") json
        = .ok [FsOp.createDirAll (convTarget input out f "msyt").dropLast,
               FsOp.writeFile (convTarget input out f "msyt") (.textual
                 (match json with
                  | true => ser.toJson doc
                  | false => ser.toYaml doc))]) ∧
    (∀ text m, fs.textFiles.lookup f = some text →
      ser.fromYaml text = .ok m →
      ((({ m with byteOrder := endiannessOf be } : Document)).entries.map
        Prod.fst).Nodup →
      create_single fs ser f (convTarget input out f "msbt") be
        = .ok [FsOp.createDirAll (convTarget input out f "msbt").dropLast,
               FsOp.writeFile (convTarget input out f "msbt") (.binary
                 (msbtBytesS { m with byteOrder := endiannessOf be }
                   (canonSlack { m with byteOrder := endiannessOf be })))]) := by
  refine ⟨?_, rfl, rfl, ?_, ?_⟩
  · simp only [globFiles, List.mem_filter, List.mem_append, matchesExt,
      Bool.and_eq_true, beq_iff_eq, decide_eq_true_eq]
    tauto
  · intro bytes doc hlook hdec
    exact export_single_ok fs ser f _ json bytes doc hlook hdec
  · intro text m hlook hy hnd
    rw [create_single_yaml_ok fs ser f _ be text m hlook hy]
    exact createFinish_ok m _ be hnd

/-- C9: `create_single` determines the text format by trial: it parses as
YAML first and, on success, continues with the YAML result without ever
consulting the JSON parser (valid YAML is never parsed as JSON); only when
YAML fails is JSON tried, and when both fail the reported error is the JSON
parse error (the YAML error is discarded). -/
theorem create_parse_trial (fs : FS) (ser : Serializers) (input output : Path)
    (be : Bool) (text : String)
    (hlook : fs.textFiles.lookup input = some text) :
    (∀ m, ser.fromYaml text = .ok m →
      create_single fs ser input output be = createFinish m output be) ∧
    (∀ ey m, ser.fromYaml text = .error ey → ser.fromJson text = .ok m →
      create_single fs ser input output be = createFinish m output be) ∧
    (∀ ey ej, ser.fromYaml text = .error ey → ser.fromJson text = .error ej →
      create_single fs ser input output be
        = .error ("Could not parse text as valid MSYT YAML or JSON: " ++ ej)) := by
  refine ⟨?_, ?_, ?_⟩
  · intro m hy
    exact create_single_yaml_ok fs ser input output be text m hlook hy
  · intro ey m hy hj
    unfold create_single
    rw [hlook]
    dsimp only
    rw [hy]
    dsimp only
    rw [hj]
  · intro ey ej hy hj
    exact create_single_both_err fs ser input output be text ey ej hlook hy hj

theorem create_parse_trial_witness :
    fsW.textFiles.lookup ["ic", "g.msyt"] = some "good" ∧
    ((∀ m, serW.fromYaml "good" = .ok m →
      create_single fsW serW ["ic", "g.msyt"] ["o", "x.msbt"] true
        = createFinish m ["o", "x.msbt"] true) ∧
    (∀ ey m, serW.fromYaml "good" = .error ey → serW.fromJson "good" = .ok m →
      create_single fsW serW ["ic", "g.msyt"] ["o", "x.msbt"] true
        = createFinish m ["o", "x.msbt"] true) ∧
    (∀ ey ej, serW.fromYaml "good" = .error ey →
      serW.fromJson "good" = .error ej →
      create_single fsW serW ["ic", "g.msyt"] ["o", "x.msbt"] true
        = .error ("Could not parse text as valid MSYT YAML or JSON: " ++ ej))) :=
  ⟨rfl, create_parse_trial fsW serW ["ic", "g.msyt"] ["o", "x.msbt"] true
    "good" rfl⟩

/-! ## The Python-dict interface (src/src/lib.rs, lines 297–338)

`to_dict` calls Python's `json.loads` on `to_json()`; `from_dict` calls
Python's `json.dumps` and hands the text to `from_json`.  The Python dict
type and `json` module enter as parameters (`D`, `loads`, `dumps`). -/

/-- `Msbt.to_json` (src/src/lib.rs, lines 266–269). -/
def Msbt.to_json (ser : Serializers) (m : Document) : String := ser.toJson m

/-- `Msbt.from_json` (src/src/lib.rs, lines 297–303). -/
def Msbt.from_json (ser : Serializers) (s : String) : Except String Document :=
  match ser.fromJson s with
  | .ok m => .ok m
  | .error e => .error ("Could not parse JSON to MSBT: " ++ e)

/-- `Msbt.to_dict` (src/src/lib.rs, lines 311–320): `json.loads(to_json())`. -/
def Msbt.to_dict {D : Type} (ser : Serializers) (loads : String → D)
    (m : Document) : D :=
  loads (Msbt.to_json ser m)

/-- `Msbt.from_dict` (src/src/lib.rs, lines 331–338):
`from_json(json.dumps(dict))`. -/
def Msbt.from_dict {D : Type} (ser : Serializers) (dumps : D → String)
    (d : D) : Except String Document :=
  Msbt.from_json ser (dumps d)

/-- The dict interface as the spec words it: `from_dict` is the JSON reader
after `json.dumps`. -/
def specFromDict {D : Type} (ser : Serializers) (dumps : D → String)
    (d : D) : Except String Document :=
  Msbt.from_json ser (dumps d)

/-- The dict interface as the spec words it: `to_dict` is `json.loads` of
the JSON writer. -/
def specToDict {D : Type} (ser : Serializers) (loads : String → D)
    (m : Document) : D :=
  loads (Msbt.to_json ser m)

/-- C10: the Python-dict interface is definitionally the JSON interface —
`from_dict` equals `from_json ∘ json.dumps` and `to_dict` equals
`json.loads ∘ to_json` — and therefore `from_dict (to_dict m)` recovers `m`
whenever `json.dumps` inverts `json.loads` on `to_json m` and the JSON
round trip recovers `m`. -/
theorem dict_json_equiv {D : Type} (ser : Serializers) (dumps : D → String)
    (loads : String → D) (d : D) (m : Document)
    (hld : dumps (loads (Msbt.to_json ser m)) = Msbt.to_json ser m)
    (hjson : Msbt.from_json ser (Msbt.to_json ser m) = .ok m) :
    Msbt.from_dict ser dumps d = specFromDict ser dumps d ∧
    Msbt.to_dict ser loads m = specToDict ser loads m ∧
    Msbt.from_dict ser dumps (Msbt.to_dict ser loads m) = .ok m := by
  refine ⟨rfl, rfl, ?_⟩
  show Msbt.from_json ser (dumps (loads (Msbt.to_json ser m))) = .ok m
  rw [hld]
  exact hjson

/-- A JSON serializer whose reader inverts its writer on `wDoc`. -/
def serJ : Serializers :=
  { toYaml := fun _ => "", toJson := fun _ => "doc",
    fromYaml := fun _ => .error "",
    fromJson := fun s => if s = "doc" then .ok wDoc else .error "e" }

theorem dict_json_equiv_witness :
    (id (id (Msbt.to_json serJ wDoc)) = Msbt.to_json serJ wDoc) ∧
    Msbt.from_json serJ (Msbt.to_json serJ wDoc) = .ok wDoc ∧
    (Msbt.from_dict serJ id "any" = specFromDict serJ id "any" ∧
     Msbt.to_dict serJ id wDoc = specToDict serJ id wDoc ∧
     Msbt.from_dict serJ id (Msbt.to_dict serJ id wDoc) = .ok wDoc) :=
  ⟨rfl, by decide,
   dict_json_equiv serJ id id "any" wDoc rfl (by decide)⟩

end PyMsyt
